import Mathlib

/-!
# table-count: AUTO_INCREMENT against COUNT(*)

A shallow embedding of `main.go`: the catalog scan (`autoTables`), the
row counter (`countTables`), the drift metric (`table.diff`) and the report
writer (`printTables`), followed by the properties proved about them.

Modelling conventions.
* The database handle (`sqlx.Queryer`) is an explicit state machine: each
  call takes the session state and returns the answer with the next state.
* A `[]*table` whose pointers are distinct and non-nil (as `autoTables`
  builds it) is a `List table`; writing through a pointer is a functional
  update at that position. A nil slice is the empty list.
* Go `int` is the 64-bit two-complement integer, an `Int` wrapped explicitly.
* A `float64` is a sign with a rational magnitude, an infinity or NaN; every
  operation of `diff` rounds its exact result to 53 significant bits, ties to
  even, as IEEE 754 binary64 does.
-/

namespace TableCount

/-! ## Go values -/

/-- Go error value, identified by its message. -/
abbrev GoError := String

/-- Smallest Go `int` (64 bit). -/
def minInt : Int := -9223372036854775808

/-- Largest Go `int` (64 bit). -/
def maxInt : Int := 9223372036854775807

/-- Two-complement wrap-around of an integer into the Go `int` range. -/
def wrapInt (x : Int) : Int :=
  (x + 9223372036854775808) % 18446744073709551616 - 9223372036854775808

/-- Record `type table struct` (main.go 132-136). -/
structure table where
  name : String
  auto_increment : Int
  count : Int
  deriving DecidableEq, Repr

/-! ## The database collaborator -/

/-- Outcome of `rows.Scan(&table.name, &table.auto_increment)` on one result
row: the decoded pair, or the decoding error. -/
inductive ScanRow where
  | ok (name : String) (value : Int)
  | fail (err : GoError)
  deriving DecidableEq, Repr

/-- Cursor `*sql.Rows`: the rows that `rows.Next()` delivers before it returns
false, and the value of `rows.Err()` at that point (an error when the
iteration stopped because reading the result set failed). -/
structure Rows where
  rows : List ScanRow
  err : Option GoError
  deriving DecidableEq, Repr

/-- Interface `sqlx.Queryer` as used by the program, over a session state `σ`.
`Query q arg` is `exec.Query(q, arg)`; `QueryRowx q` is
`exec.QueryRowx(q).Scan(&n)` for an `int` destination. -/
structure Queryer (σ : Type) where
  Query : σ → String → String → Except GoError Rows × σ
  QueryRowx : σ → String → Except GoError Int × σ

/-! ## autoTables and countTables -/

/-- Query text built at main.go 86-89. -/
def catalogQuery : String :=
  "SELECT TABLE_NAME, AUTO_INCREMENT" ++
  " FROM information_schema.TABLES" ++
  " WHERE TABLE_SCHEMA = ?" ++
  " AND AUTO_INCREMENT > 1 ORDER BY AUTO_INCREMENT DESC"

/-- Query text built at main.go 119:
`fmt.Sprintf("SELECT COUNT(*) FROM %s.%s", database, table.name)`. -/
def countQuery (database name : String) : String :=
  "SELECT COUNT(*) FROM " ++ database ++ "." ++ name

/-- Loop of main.go 101-111 over the rows delivered by `rows.Next()`.
`tables` is the slice built so far. A row whose `Scan` fails ends the
function with that error; otherwise the record, its counter decremented,
is appended. -/
def scanRows : List ScanRow → List table → Except GoError (List table)
  | [], tables => Except.ok tables
  | ScanRow.ok name value :: rest, tables =>
      scanRows rest (tables ++ [{ name := name, auto_increment := wrapInt (value - 1), count := 0 }])
  | ScanRow.fail err :: _, _ => Except.error err

/-- Record built from a decoded row at main.go 102-104. -/
def fromRow (p : String × Int) : table :=
  { name := p.1, auto_increment := wrapInt (p.2 - 1), count := 0 }

/-- Result pair `([]*table, error)` of `autoTables`, and the pair of the
slice contents after `countTables` with its `error`. -/
structure Result where
  tables : List table
  err : Option GoError
  deriving DecidableEq, Repr

/-- Function `countTables` (main.go 117-130). Returns the contents of the
slice as the caller sees it afterwards, and the returned error. -/
def countTables {σ : Type} (exec : Queryer σ) (s : σ) (database : String) :
    List table → Result × σ
  | [] => ({ tables := [], err := none }, s)
  | t :: rest =>
      match exec.QueryRowx s (countQuery database t.name) with
      | (Except.ok n, s1) =>
          let r := countTables exec s1 database rest
          ({ tables := { t with count := n } :: r.1.tables, err := r.1.err }, r.2)
      | (Except.error e, s1) => ({ tables := t :: rest, err := some e }, s1)

/-- Function `autoTables` (main.go 85-115). -/
def autoTables {σ : Type} (exec : Queryer σ) (s : σ) (database : String) : Result × σ :=
  match exec.Query s catalogQuery database with
  | (Except.error e, s1) => ({ tables := [], err := some e }, s1)
  | (Except.ok rows, s1) =>
      match scanRows rows.rows [] with
      | Except.error e => ({ tables := [], err := some e }, s1)
      | Except.ok tables => countTables exec s1 database tables

/-! ## float64 arithmetic -/

/-- Nearest integer to a non-negative rational, ties to even. -/
def roundHalfEven (q : ℚ) : Nat :=
  let f := ⌊q⌋₊
  let r := q - f
  if r < 1 / 2 then f
  else if 1 / 2 < r then f + 1
  else if f % 2 = 0 then f else f + 1

/-- Nearest number with 53 significant bits to a positive rational, ties to
even, and 0 for a rational that is not positive: the rounding every binary64
operation applies to its exact result. The exponent range of binary64 is not
modelled: the fields of a `table` are Go ints, so every value that `diff`
computes from them is 0 or has a magnitude between 2^-63 and 2^72. -/
def roundTo53 (q : ℚ) : ℚ :=
  if q ≤ 0 then 0
  else (roundHalfEven (q / 2 ^ (Int.log 2 q - 52)) : ℚ) * 2 ^ (Int.log 2 q - 52)

/-- A `float64` value: a sign bit with a magnitude (zero has both signs), an
infinity with its sign, or NaN. -/
inductive Float64 where
  | finite (neg : Bool) (mag : ℚ)
  | inf (neg : Bool)
  | nan
  deriving DecidableEq

/-- The rational a sign bit and a magnitude stand for. -/
def signed (neg : Bool) (mag : ℚ) : ℚ := if neg then -mag else mag

/-- Conversion `float64(i)` of a Go `int`. -/
def Float64.ofInt (i : Int) : Float64 :=
  Float64.finite (decide (i < 0)) (roundTo53 |(i : ℚ)|)

/-- Sign change. -/
def Float64.neg : Float64 → Float64
  | Float64.finite n m => Float64.finite (!n) m
  | Float64.inf n => Float64.inf (!n)
  | Float64.nan => Float64.nan

/-- Operator `+` on `float64`: an exact zero sum is `+0` unless both operands
are negative. -/
def Float64.add : Float64 → Float64 → Float64
  | Float64.finite n1 m1, Float64.finite n2 m2 =>
      if signed n1 m1 + signed n2 m2 = 0 then Float64.finite (n1 && n2) 0
      else Float64.finite (decide (signed n1 m1 + signed n2 m2 < 0))
        (roundTo53 |signed n1 m1 + signed n2 m2|)
  | Float64.finite _ _, Float64.inf n2 => Float64.inf n2
  | Float64.inf n1, Float64.finite _ _ => Float64.inf n1
  | Float64.inf n1, Float64.inf n2 => if n1 = n2 then Float64.inf n1 else Float64.nan
  | Float64.nan, _ => Float64.nan
  | _, Float64.nan => Float64.nan

/-- Operator `-` on `float64`. -/
def Float64.sub (x y : Float64) : Float64 := x.add y.neg

/-- Operator `*` on `float64`. -/
def Float64.mul : Float64 → Float64 → Float64
  | Float64.finite n1 m1, Float64.finite n2 m2 =>
      Float64.finite (xor n1 n2) (roundTo53 (m1 * m2))
  | Float64.finite n1 m1, Float64.inf n2 =>
      if m1 = 0 then Float64.nan else Float64.inf (xor n1 n2)
  | Float64.inf n1, Float64.finite n2 m2 =>
      if m2 = 0 then Float64.nan else Float64.inf (xor n1 n2)
  | Float64.inf n1, Float64.inf n2 => Float64.inf (xor n1 n2)
  | Float64.nan, _ => Float64.nan
  | _, Float64.nan => Float64.nan

/-- Operator `/` on `float64`: `0/0` is NaN, any other division by zero an
infinity. -/
def Float64.div : Float64 → Float64 → Float64
  | Float64.finite n1 m1, Float64.finite n2 m2 =>
      if m2 = 0 then (if m1 = 0 then Float64.nan else Float64.inf (xor n1 n2))
      else Float64.finite (xor n1 n2) (roundTo53 (m1 / m2))
  | Float64.finite n1 _, Float64.inf n2 => Float64.finite (xor n1 n2) 0
  | Float64.inf n1, Float64.finite n2 _ => Float64.inf (xor n1 n2)
  | Float64.inf _, Float64.inf _ => Float64.nan
  | Float64.nan, _ => Float64.nan
  | _, Float64.nan => Float64.nan

/-- Whether a `float64` is one of the two zeros. -/
def Float64.isZero : Float64 → Bool
  | Float64.finite _ m => decide (m = 0)
  | _ => false

/-- A positive rational with 53 significant bits. -/
def Representable (q : ℚ) : Prop :=
  ∃ (m : ℕ) (k : ℤ), 2 ^ 52 ≤ m ∧ m < 2 ^ 53 ∧ q = (m : ℚ) * 2 ^ k

/-! ## The drift metric -/

/-- Method `(t *table) diff()` (main.go 142-145):
`a, b := float64(t.auto_increment), float64(t.count)` and
`(a - b) / ((a + b) / 2) * 100`, each operation rounded. -/
def table.diff (t : table) : Float64 :=
  let a := Float64.ofInt t.auto_increment
  let b := Float64.ofInt t.count
  Float64.mul
    (Float64.div (Float64.sub a b) (Float64.div (Float64.add a b) (Float64.finite false 2)))
    (Float64.finite false 100)

/-- Value of the drift formula in exact arithmetic: a rational, or what a
division by zero leaves. -/
inductive Drift where
  | finite (q : ℚ)
  | posInf
  | negInf
  | nan
  deriving DecidableEq

/-- The formula of `diff()`, `(a - b) / ((a + b) / 2) * 100`, evaluated in
exact arithmetic over the rationals, without the rounding of `float64`. -/
def table.diffExact (t : table) : Drift :=
  let a : ℚ := t.auto_increment
  let b : ℚ := t.count
  if (a + b) / 2 = 0 then
    if a - b = 0 then Drift.nan
    else if 0 < a - b then Drift.posInf
    else Drift.negInf
  else Drift.finite ((a - b) / ((a + b) / 2) * 100)

/-! ## printTables -/

/-- Two decimal digits of a number below 100. -/
def twoDigits (n : Nat) : String :=
  String.mk [Nat.digitChar (n / 10 % 10), Nat.digitChar (n % 10)]

/-- Verb `%.2f` on a finite value given by its sign bit and magnitude: the
exact value rounded to two decimals, ties to even; the sign is printed even
when the digits are all zero. -/
def fmtFixed2 (neg : Bool) (mag : ℚ) : String :=
  (if neg then "-" else "") ++ toString (roundHalfEven (mag * 100) / 100) ++ "." ++
    twoDigits (roundHalfEven (mag * 100) % 100)

/-- Verb `%.2f` of package fmt on a `float64`. -/
def fmtFloat2 : Float64 → String
  | Float64.finite n m => fmtFixed2 n m
  | Float64.inf false => "+Inf"
  | Float64.inf true => "-Inf"
  | Float64.nan => "NaN"

/-- A text made of an optional minus sign, a decimal integer, a point and
two decimal digits. -/
def hasTwoFractionDigits (s : String) : Prop :=
  ∃ (neg : Bool) (n d1 d2 : Nat), d1 < 10 ∧ d2 < 10 ∧
    s = (if neg then "-" else "") ++ toString n ++ "." ++
          String.mk [Nat.digitChar d1, Nat.digitChar d2]

/-- Header written at main.go 151 (`Fprintln` appends the newline). -/
def headerLine : String := "table\tAUTO\tcount\tΔ"

/-- Text of one data line, without its newline: the verbs of main.go 154,
`"%s\t%d\t%d\t%.2f%%\n"`. -/
def dataLine (t : table) : String :=
  t.name ++ "\t" ++ toString t.auto_increment ++ "\t" ++ toString t.count ++ "\t" ++
    fmtFloat2 t.diff ++ "%"

/-- Loop of main.go 153-155: `w` is the text written so far. -/
def printRows : List table → String → String
  | [], w => w
  | t :: rest, w => printRows rest (w ++ (dataLine t ++ "\n"))

/-- Function `printTables` (main.go 147-159): the text written to the
tabwriter, before column alignment. -/
def printTables (tables : List table) : String :=
  let w := "" ++ (headerLine ++ "\n")
  let w := printRows tables w
  w ++ "\n"

/-- The text made of the given lines, each followed by a newline. -/
def joinLines : List String → String
  | [] => ""
  | l :: ls => l ++ "\n" ++ joinLines ls

/-- Number of newline characters in a text. -/
def newlines (s : String) : Nat := s.data.count '\n'

/-! ## main -/

/-- What a run leaves behind: the text on standard output and the exit
status. -/
structure Outcome where
  stdout : String
  exitCode : Nat
  deriving DecidableEq, Repr

/-- Lines 72-82 of `main`, once the handle is open and the schema name is
present: `log.Fatal` ends the run with status 1 before anything is printed. -/
def mainRun {σ : Type} (exec : Queryer σ) (s : σ) (database : String) : Outcome :=
  let r := (autoTables exec s database).1
  match r.err with
  | some _ => { stdout := "", exitCode := 1 }
  | none => { stdout := printTables r.tables, exitCode := 0 }

/-! ## Recording the calls made on a handle -/

/-- One call made on the handle: the query text, and for a count query the
answer it received. -/
inductive Call where
  | Query (q arg : String)
  | QueryRowx (q : String) (answer : Except GoError Int)

/-- Whether a recorded call is a count query that was answered with a number. -/
def Call.succeeded : Call → Bool
  | Call.Query _ _ => true
  | Call.QueryRowx _ (Except.ok _) => true
  | Call.QueryRowx _ (Except.error _) => false

/-- The same handle, with every call appended to a journal kept beside the
session state. The answers are those of `exec`. -/
def recording {σ : Type} (exec : Queryer σ) : Queryer (σ × List Call) where
  Query := fun s q arg =>
    let r := exec.Query s.1 q arg
    (r.1, (r.2, s.2 ++ [Call.Query q arg]))
  QueryRowx := fun s q =>
    let r := exec.QueryRowx s.1 q
    (r.1, (r.2, s.2 ++ [Call.QueryRowx q r.1]))

/-- Journal entries of count queries for `ts`, in order, answered by `ns`. -/
def countCalls (database : String) (ts : List table) (ns : List Int) : List Call :=
  List.zipWith (fun t n => Call.QueryRowx (countQuery database t.name) (Except.ok n)) ts ns

/-- The records `ts` with their counts replaced, position by position, by `ns`. -/
def withCounts (ts : List table) (ns : List Int) : List table :=
  List.zipWith (fun t n => { t with count := n }) ts ns

/-! ## A server answering the two queries from a catalog -/

/-- One line of `information_schema.TABLES`, with the number of rows the
table holds. `AUTO_INCREMENT` is null for a table without such a column. -/
structure CatalogTable where
  TABLE_SCHEMA : String
  TABLE_NAME : String
  AUTO_INCREMENT : Option Nat
  tableRows : Nat
  deriving DecidableEq, Repr

/-- Counter of a catalog line, with null read as 0. -/
def CatalogTable.counter (e : CatalogTable) : Nat := e.AUTO_INCREMENT.getD 0

/-- Clause `WHERE TABLE_SCHEMA = ? AND AUTO_INCREMENT > 1` of the catalog
query: a comparison with null is not true. -/
def selected (database : String) (e : CatalogTable) : Bool :=
  e.TABLE_SCHEMA == database &&
    (match e.AUTO_INCREMENT with
     | some v => decide (1 < v)
     | none => false)

/-- Result set of the catalog query: the selected lines,
`ORDER BY AUTO_INCREMENT DESC`. -/
def catalogAnswer (cat : List CatalogTable) (database : String) : List CatalogTable :=
  (cat.filter (selected database)).insertionSort (fun a b => b.counter ≤ a.counter)

/-- Decoding of a result row into `(string, int)`: a counter beyond the
largest `int` does not convert. -/
def scanCatalogRow (e : CatalogTable) : ScanRow :=
  if (e.counter : Int) ≤ maxInt then ScanRow.ok e.TABLE_NAME e.counter
  else ScanRow.fail "converting driver.Value type uint64 to a int: value out of range"

/-- A server holding the catalog `cat`: it answers the catalog query with the
selected lines and a count query with the number of rows of the table it
names. -/
def mysql (cat : List CatalogTable) : Queryer Unit where
  Query := fun s q arg =>
    if q = catalogQuery then
      (Except.ok { rows := (catalogAnswer cat arg).map scanCatalogRow, err := none }, s)
    else (Except.error "Error 1064: You have an error in your SQL syntax", s)
  QueryRowx := fun s q =>
    match cat.find? (fun e => countQuery e.TABLE_SCHEMA e.TABLE_NAME == q) with
    | some e =>
        if (e.tableRows : Int) ≤ maxInt then (Except.ok e.tableRows, s)
        else (Except.error "converting driver.Value type uint64 to a int: value out of range", s)
    | none => (Except.error "Error 1146: Table does not exist", s)

/-- Whether every number of a catalog line converts to a Go `int`. -/
def CatalogTable.fits (e : CatalogTable) : Prop :=
  (e.counter : Int) ≤ maxInt ∧ (e.tableRows : Int) ≤ maxInt

/-! ## Sample sessions -/

/-- The fixture schema `shop` of the specification. -/
def shop : List CatalogTable :=
  [ { TABLE_SCHEMA := "shop", TABLE_NAME := "orders", AUTO_INCREMENT := some 1001, tableRows := 950 },
    { TABLE_SCHEMA := "shop", TABLE_NAME := "users", AUTO_INCREMENT := some 501, tableRows := 500 },
    { TABLE_SCHEMA := "shop", TABLE_NAME := "logs", AUTO_INCREMENT := some 11, tableRows := 0 },
    { TABLE_SCHEMA := "shop", TABLE_NAME := "audits", AUTO_INCREMENT := some 80, tableRows := 100 },
    { TABLE_SCHEMA := "shop", TABLE_NAME := "notes", AUTO_INCREMENT := none, tableRows := 7 },
    { TABLE_SCHEMA := "shop", TABLE_NAME := "fresh", AUTO_INCREMENT := some 1, tableRows := 0 },
    { TABLE_SCHEMA := "crm", TABLE_NAME := "leads", AUTO_INCREMENT := some 40, tableRows := 39 } ]

/-- Three records as the catalog scan leaves them, not yet counted. -/
def uncounted : List table :=
  [⟨"orders", 1000, 0⟩, ⟨"users", 500, 0⟩, ⟨"logs", 10, 0⟩]

/-- A handle whose catalog query delivers `orders` and `users`, and on which
the table `users` has been dropped before it is counted. -/
def droppedUsers : Queryer Unit where
  Query := fun s _ _ =>
    (Except.ok { rows := [ScanRow.ok "orders" 1001, ScanRow.ok "users" 501], err := none }, s)
  QueryRowx := fun s q =>
    if q = "SELECT COUNT(*) FROM shop.orders" then (Except.ok 950, s)
    else (Except.error "Error 1146: Table does not exist", s)

/-- A handle whose catalog query delivers the row of `orders` and then stops
because reading the result set failed: `rows.Next()` returns false and
`rows.Err()` holds the cause. Count queries are answered. -/
def brokenCursor : Queryer Unit where
  Query := fun s _ _ =>
    (Except.ok { rows := [ScanRow.ok "orders" 1001], err := some "unexpected EOF" }, s)
  QueryRowx := fun s _ => (Except.ok 950, s)

/-- Pair `(name, value)` decoded from a catalog line. -/
def decodedRow (e : CatalogTable) : String × Int := (e.TABLE_NAME, (e.counter : Int))

/-- Records of which the second one names a table that `mysql shop` does not
hold. -/
def withGhost : List table :=
  [⟨"orders", 1000, 0⟩, ⟨"ghost", 7, 0⟩, ⟨"users", 500, 0⟩]

/-- A record with nothing issued and nothing stored. -/
def zeroRecord : table := ⟨"t", 0, 0⟩

/-! ## Lemmas on the two loops -/

theorem wrapInt_pred (v : Int) (h1 : minInt < v) (h2 : v ≤ maxInt) : wrapInt (v - 1) = v - 1 := by
  unfold wrapInt
  unfold minInt at h1
  unfold maxInt at h2
  omega

theorem scanRows_decoded (rs : List (String × Int)) (acc : List table) :
    scanRows (rs.map (fun p => ScanRow.ok p.1 p.2)) acc = Except.ok (acc ++ rs.map fromRow) := by
  induction rs generalizing acc with
  | nil => simp [scanRows]
  | cons p rest ih =>
      simp only [List.map_cons, scanRows, ih]
      simp [fromRow]

theorem scanRows_ok_iff (rows : List ScanRow) (acc ts : List table) :
    scanRows rows acc = Except.ok ts ↔
      ∃ rs : List (String × Int),
        rows = rs.map (fun p => ScanRow.ok p.1 p.2) ∧ ts = acc ++ rs.map fromRow := by
  induction rows generalizing acc with
  | nil =>
      constructor
      · intro h
        refine ⟨[], rfl, ?_⟩
        simpa [scanRows] using h.symm
      · rintro ⟨rs, h1, h2⟩
        cases rs with
        | nil => simp [scanRows, h2]
        | cons p rest => simp at h1
  | cons r rest ih =>
      cases r with
      | fail e =>
          constructor
          · intro h
            simp [scanRows] at h
          · rintro ⟨rs, h1, _⟩
            cases rs with
            | nil => simp at h1
            | cons p rest => simp at h1
      | ok n v =>
          simp only [scanRows]
          rw [ih]
          constructor
          · rintro ⟨rs, h1, h2⟩
            refine ⟨(n, v) :: rs, by simp [h1], ?_⟩
            simp [h2, fromRow]
          · rintro ⟨rs, h1, h2⟩
            cases rs with
            | nil => simp at h1
            | cons p rs =>
                simp only [List.map_cons, List.cons.injEq, ScanRow.ok.injEq] at h1
                obtain ⟨⟨hn, hv⟩, hrest⟩ := h1
                refine ⟨rs, hrest, ?_⟩
                subst hn hv
                simp [h2, fromRow]

theorem countTables_cons_ok {σ : Type} (exec : Queryer σ) (database : String) (t : table)
    (rest : List table) (s s1 : σ) (n : Int)
    (hq : exec.QueryRowx s (countQuery database t.name) = (Except.ok n, s1)) :
    countTables exec s database (t :: rest)
      = ({ tables := { t with count := n } :: (countTables exec s1 database rest).1.tables,
           err := (countTables exec s1 database rest).1.err },
         (countTables exec s1 database rest).2) := by
  simp [countTables, hq]

theorem countTables_cons_error {σ : Type} (exec : Queryer σ) (database : String) (t : table)
    (rest : List table) (s s1 : σ) (e : GoError)
    (hq : exec.QueryRowx s (countQuery database t.name) = (Except.error e, s1)) :
    countTables exec s database (t :: rest) = ({ tables := t :: rest, err := some e }, s1) := by
  simp [countTables, hq]

theorem recording_QueryRowx {σ : Type} (exec : Queryer σ) (s : σ) (l : List Call) (q : String) :
    (recording exec).QueryRowx (s, l) q
      = ((exec.QueryRowx s q).1, ((exec.QueryRowx s q).2, l ++ [Call.QueryRowx q (exec.QueryRowx s q).1])) :=
  rfl

theorem recording_Query {σ : Type} (exec : Queryer σ) (s : σ) (l : List Call) (q arg : String) :
    (recording exec).Query (s, l) q arg
      = ((exec.Query s q arg).1, ((exec.Query s q arg).2, l ++ [Call.Query q arg])) :=
  rfl

/-- The journal and the result of `countTables` on a recording handle: either
every record was counted, or the loop stopped at the first failing record. -/
theorem countTables_recording_cases {σ : Type} (exec : Queryer σ) (database : String)
    (ts : List table) (s : σ) (l : List Call) :
    (∃ ns : List Int, ns.length = ts.length ∧
        (countTables (recording exec) (s, l) database ts).1
          = { tables := withCounts ts ns, err := none } ∧
        (countTables (recording exec) (s, l) database ts).2.2
          = l ++ countCalls database ts ns) ∨
    (∃ (pre : List table) (t : table) (post : List table) (ns : List Int) (e : GoError),
        ts = pre ++ t :: post ∧ ns.length = pre.length ∧
        (countTables (recording exec) (s, l) database ts).1
          = { tables := withCounts pre ns ++ t :: post, err := some e } ∧
        (countTables (recording exec) (s, l) database ts).2.2
          = l ++ countCalls database pre ns ++
              [Call.QueryRowx (countQuery database t.name) (Except.error e)]) := by
  induction ts generalizing s l with
  | nil =>
      left
      exact ⟨[], rfl, by simp [countTables, withCounts], by simp [countTables, countCalls]⟩
  | cons t rest ih =>
      rcases hq : exec.QueryRowx s (countQuery database t.name) with ⟨a, s1⟩
      cases a with
      | error e =>
          have hq1 : (recording exec).QueryRowx (s, l) (countQuery database t.name)
              = (Except.error e,
                  (s1, l ++ [Call.QueryRowx (countQuery database t.name) (Except.error e)])) := by
            rw [recording_QueryRowx, hq]
          right
          refine ⟨[], t, rest, [], e, rfl, rfl, ?_, ?_⟩
          · rw [countTables_cons_error _ _ _ _ _ _ _ hq1]
            simp [withCounts]
          · rw [countTables_cons_error _ _ _ _ _ _ _ hq1]
            simp [countCalls]
      | ok n =>
          have hq1 : (recording exec).QueryRowx (s, l) (countQuery database t.name)
              = (Except.ok n,
                  (s1, l ++ [Call.QueryRowx (countQuery database t.name) (Except.ok n)])) := by
            rw [recording_QueryRowx, hq]
          rcases ih s1 (l ++ [Call.QueryRowx (countQuery database t.name) (Except.ok n)]) with
            ⟨ns, hlen, hres, hlog⟩ | ⟨pre, t1, post, ns, e, hts, hlen, hres, hlog⟩
          · left
            refine ⟨n :: ns, by simp [hlen], ?_, ?_⟩
            · rw [countTables_cons_ok _ _ _ _ _ _ _ hq1, hres]
              simp [withCounts]
            · rw [countTables_cons_ok _ _ _ _ _ _ _ hq1, hlog]
              simp [countCalls]
          · right
            refine ⟨t :: pre, t1, post, n :: ns, e, by simp [hts], by simp [hlen], ?_, ?_⟩
            · rw [countTables_cons_ok _ _ _ _ _ _ _ hq1, hres]
              simp [withCounts]
            · rw [countTables_cons_ok _ _ _ _ _ _ _ hq1, hlog]
              simp [countCalls]

/-- Recording does not change what `countTables` returns nor the session. -/
theorem countTables_recording_eq {σ : Type} (exec : Queryer σ) (database : String)
    (ts : List table) (s : σ) (l : List Call) :
    (countTables (recording exec) (s, l) database ts).1 = (countTables exec s database ts).1 ∧
    (countTables (recording exec) (s, l) database ts).2.1 = (countTables exec s database ts).2 := by
  induction ts generalizing s l with
  | nil => simp [countTables]
  | cons t rest ih =>
      rcases hq : exec.QueryRowx s (countQuery database t.name) with ⟨a, s1⟩
      cases a with
      | error e =>
          have hq1 : (recording exec).QueryRowx (s, l) (countQuery database t.name)
              = (Except.error e,
                  (s1, l ++ [Call.QueryRowx (countQuery database t.name) (Except.error e)])) := by
            rw [recording_QueryRowx, hq]
          rw [countTables_cons_error _ _ _ _ _ _ _ hq1, countTables_cons_error _ _ _ _ _ _ _ hq]
          exact ⟨rfl, rfl⟩
      | ok n =>
          have hq1 : (recording exec).QueryRowx (s, l) (countQuery database t.name)
              = (Except.ok n,
                  (s1, l ++ [Call.QueryRowx (countQuery database t.name) (Except.ok n)])) := by
            rw [recording_QueryRowx, hq]
          have h := ih s1 (l ++ [Call.QueryRowx (countQuery database t.name) (Except.ok n)])
          rw [countTables_cons_ok _ _ _ _ _ _ _ hq1, countTables_cons_ok _ _ _ _ _ _ _ hq]
          exact ⟨by simp only [h.1], h.2⟩

theorem countTables_keeps_fields {σ : Type} (exec : Queryer σ) (database : String)
    (ts : List table) (s : σ) :
    (countTables exec s database ts).1.tables.map (fun t => (t.name, t.auto_increment))
      = ts.map (fun t => (t.name, t.auto_increment)) := by
  induction ts generalizing s with
  | nil => simp [countTables]
  | cons t rest ih =>
      rcases hq : exec.QueryRowx s (countQuery database t.name) with ⟨a, s1⟩
      cases a with
      | error e => rw [countTables_cons_error _ _ _ _ _ _ _ hq]
      | ok n =>
          rw [countTables_cons_ok _ _ _ _ _ _ _ hq]
          simp [ih s1]

theorem autoTables_of_rows {σ : Type} (exec : Queryer σ) (s s1 : σ) (database : String)
    (rows : Rows) (rs : List (String × Int))
    (hquery : exec.Query s catalogQuery database = (Except.ok rows, s1))
    (hrows : rows.rows = rs.map (fun p => ScanRow.ok p.1 p.2)) :
    autoTables exec s database = countTables exec s1 database (rs.map fromRow) := by
  unfold autoTables
  rw [hquery]
  simp only [hrows, scanRows_decoded, List.nil_append]

theorem autoTables_query_error {σ : Type} (exec : Queryer σ) (s s1 : σ) (database : String)
    (e : GoError) (hquery : exec.Query s catalogQuery database = (Except.error e, s1)) :
    autoTables exec s database = ({ tables := [], err := some e }, s1) := by
  unfold autoTables
  rw [hquery]

theorem autoTables_scan_error {σ : Type} (exec : Queryer σ) (s s1 : σ) (database : String)
    (rows : Rows) (e : GoError)
    (hquery : exec.Query s catalogQuery database = (Except.ok rows, s1))
    (hscan : scanRows rows.rows [] = Except.error e) :
    autoTables exec s database = ({ tables := [], err := some e }, s1) := by
  unfold autoTables
  rw [hquery]
  simp only [hscan]

theorem autoTables_scan_ok {σ : Type} (exec : Queryer σ) (s s1 : σ) (database : String)
    (rows : Rows) (ts : List table)
    (hquery : exec.Query s catalogQuery database = (Except.ok rows, s1))
    (hscan : scanRows rows.rows [] = Except.ok ts) :
    autoTables exec s database = countTables exec s1 database ts := by
  unfold autoTables
  rw [hquery]
  simp only [hscan]

/-- Recording does not change what `autoTables` returns. -/
theorem autoTables_recording_eq {σ : Type} (exec : Queryer σ) (database : String)
    (s : σ) (l : List Call) :
    (autoTables (recording exec) (s, l) database).1 = (autoTables exec s database).1 := by
  rcases hq : exec.Query s catalogQuery database with ⟨a, s1⟩
  have hq1 : (recording exec).Query (s, l) catalogQuery database
      = (a, (s1, l ++ [Call.Query catalogQuery database])) := by
    rw [recording_Query, hq]
  cases a with
  | error e =>
      rw [autoTables_query_error _ _ _ _ _ hq1, autoTables_query_error _ _ _ _ _ hq]
  | ok rows =>
      cases hscan : scanRows rows.rows [] with
      | error e =>
          rw [autoTables_scan_error _ _ _ _ _ _ hq1 hscan, autoTables_scan_error _ _ _ _ _ _ hq hscan]
      | ok ts =>
          rw [autoTables_scan_ok _ _ _ _ _ _ hq1 hscan, autoTables_scan_ok _ _ _ _ _ _ hq hscan]
          exact (countTables_recording_eq exec database ts s1 _).1

theorem fromRow_fields (rs : List (String × Int))
    (hrange : ∀ p ∈ rs, minInt < p.2 ∧ p.2 ≤ maxInt) :
    (rs.map fromRow).map (fun t => (t.name, t.auto_increment)) = rs.map (fun p => (p.1, p.2 - 1)) := by
  rw [List.map_map]
  apply List.map_congr_left
  intro p hp
  simp [fromRow, wrapInt_pred p.2 (hrange p hp).1 (hrange p hp).2]

theorem autoTables_fields {σ : Type} (exec : Queryer σ) (s s1 : σ) (database : String)
    (rows : Rows) (rs : List (String × Int))
    (hquery : exec.Query s catalogQuery database = (Except.ok rows, s1))
    (hrows : rows.rows = rs.map (fun p => ScanRow.ok p.1 p.2))
    (hrange : ∀ p ∈ rs, minInt < p.2 ∧ p.2 ≤ maxInt) :
    (autoTables exec s database).1.tables.map (fun t => (t.name, t.auto_increment))
      = rs.map (fun p => (p.1, p.2 - 1)) := by
  rw [autoTables_of_rows exec s s1 database rows rs hquery hrows, countTables_keeps_fields,
    fromRow_fields rs hrange]

/-! ## Catalog scan: one record per row, counter minus one -/

/-- C1: when the catalog query returns the rows `rs` (each a table name with
its next auto-increment value, a Go `int` above the smallest one, as every
value passing the filter `AUTO_INCREMENT > 1` is), `autoTables` returns one
record per row, in the same positions, whose name is the name of the row and
whose `auto_increment` is the value of the row minus 1. -/
theorem autoTables_one_record_per_row {σ : Type} (exec : Queryer σ) (s s1 : σ)
    (database : String) (rows : Rows) (rs : List (String × Int))
    (hquery : exec.Query s catalogQuery database = (Except.ok rows, s1))
    (hrows : rows.rows = rs.map (fun p => ScanRow.ok p.1 p.2))
    (hrange : ∀ p ∈ rs, minInt < p.2 ∧ p.2 ≤ maxInt) :
    (autoTables exec s database).1.tables.length = rs.length ∧
    (autoTables exec s database).1.tables.map (fun t => (t.name, t.auto_increment))
      = rs.map (fun p => (p.1, p.2 - 1)) := by
  have h := autoTables_fields exec s s1 database rows rs hquery hrows hrange
  refine ⟨?_, h⟩
  have hlen := congrArg List.length h
  simpa using hlen

theorem autoTables_one_record_per_row_witness :
    (autoTables (mysql shop) () "shop").1.err = none ∧
    (autoTables (mysql shop) () "shop").1.tables.length = 4 ∧
    (autoTables (mysql shop) () "shop").1.tables.map (fun t => (t.name, t.auto_increment))
      = [("orders", 1000), ("users", 500), ("audits", 79), ("logs", 10)] :=
  ⟨by decide,
   autoTables_one_record_per_row (mysql shop) () () "shop"
    { rows := [ScanRow.ok "orders" 1001, ScanRow.ok "users" 501, ScanRow.ok "audits" 80,
               ScanRow.ok "logs" 11], err := none }
    [("orders", 1001), ("users", 501), ("audits", 80), ("logs", 11)]
    rfl rfl (by decide)⟩

theorem printRows_eq (ts : List table) (w : String) :
    printRows ts w = w ++ joinLines (ts.map dataLine) := by
  induction ts generalizing w with
  | nil => simp [printRows, joinLines]
  | cons t rest ih =>
      simp only [printRows, ih, List.map_cons, joinLines, String.append_assoc]

theorem joinLines_cons (x : String) (xs : List String) :
    joinLines (x :: xs) = x ++ "\n" ++ joinLines xs := rfl

theorem joinLines_append (xs ys : List String) :
    joinLines (xs ++ ys) = joinLines xs ++ joinLines ys := by
  induction xs with
  | nil => simp [joinLines]
  | cons x rest ih =>
      rw [List.cons_append, joinLines_cons, joinLines_cons, ih]
      simp only [String.append_assoc]

theorem printTables_eq (ts : List table) :
    printTables ts = joinLines (headerLine :: ts.map dataLine ++ [""]) := by
  show printRows ts ("" ++ (headerLine ++ "\n")) ++ "\n" = _
  rw [List.cons_append, joinLines_cons, joinLines_append, printRows_eq]
  simp only [joinLines, String.append_assoc, String.empty_append, String.append_empty]

/-! ## Order of the report -/

/-- C3: when the catalog query returns rows ordered by next auto-increment
value descending, the records `autoTables` returns (after `countTables` has
run) are in non-increasing order of `auto_increment`, they are the rows in
the same positions (nothing reordered, dropped or duplicated by the
decrement or by counting), and `printTables` writes the header, then the
data line of each record in that same order, then the empty line. -/
theorem autoTables_keeps_descending_order {σ : Type} (exec : Queryer σ) (s s1 : σ)
    (database : String) (rows : Rows) (rs : List (String × Int))
    (hquery : exec.Query s catalogQuery database = (Except.ok rows, s1))
    (hrows : rows.rows = rs.map (fun p => ScanRow.ok p.1 p.2))
    (hrange : ∀ p ∈ rs, minInt < p.2 ∧ p.2 ≤ maxInt)
    (hsorted : rs.Pairwise (fun p q => q.2 ≤ p.2)) :
    (autoTables exec s database).1.tables.Pairwise
        (fun a b => b.auto_increment ≤ a.auto_increment) ∧
    (autoTables exec s database).1.tables.map (fun t => (t.name, t.auto_increment))
      = rs.map (fun p => (p.1, p.2 - 1)) ∧
    printTables (autoTables exec s database).1.tables
      = joinLines (headerLine :: (autoTables exec s database).1.tables.map dataLine ++ [""]) := by
  have h := autoTables_fields exec s s1 database rows rs hquery hrows hrange
  refine ⟨?_, h, printTables_eq _⟩
  have h1 : ((autoTables exec s database).1.tables.map
      (fun t => (t.name, t.auto_increment))).Pairwise (fun x y => y.2 ≤ x.2) := by
    rw [h, List.pairwise_map]
    exact hsorted.imp (fun hpq => by omega)
  rw [List.pairwise_map] at h1
  exact h1

theorem autoTables_keeps_descending_order_witness :
    (autoTables (mysql shop) () "shop").1.tables.Pairwise
        (fun a b => b.auto_increment ≤ a.auto_increment) ∧
    (autoTables (mysql shop) () "shop").1.tables.map (fun t => (t.name, t.auto_increment))
      = [("orders", 1000), ("users", 500), ("audits", 79), ("logs", 10)] ∧
    printTables (autoTables (mysql shop) () "shop").1.tables
      = joinLines (headerLine :: (autoTables (mysql shop) () "shop").1.tables.map dataLine ++ [""]) :=
  autoTables_keeps_descending_order (mysql shop) () () "shop"
    { rows := [ScanRow.ok "orders" 1001, ScanRow.ok "users" 501, ScanRow.ok "audits" 80,
               ScanRow.ok "logs" 11], err := none }
    [("orders", 1001), ("users", 501), ("audits", 80), ("logs", 11)]
    rfl rfl (by decide) (by decide)

/-! ## Counting -/

/-- C4: when every count query issued by `countTables` succeeds, it returns no
error; the queries issued are, in order, `SELECT COUNT(*) FROM` followed by
schema, dot and the name of each record; and the sequence the caller holds
afterwards is the input sequence with the count of each record replaced by
the answer to the query for that record: names, `auto_increment` values,
length and order are unchanged. -/
theorem countTables_sets_every_count {σ : Type} (exec : Queryer σ) (s : σ)
    (database : String) (ts : List table)
    (hall : ∀ c ∈ (countTables (recording exec) (s, []) database ts).2.2, c.succeeded = true) :
    (countTables exec s database ts).1.err = none ∧
    ∃ ns : List Int, ns.length = ts.length ∧
      (countTables (recording exec) (s, []) database ts).2.2
        = List.zipWith (fun t n =>
            Call.QueryRowx ("SELECT COUNT(*) FROM " ++ database ++ "." ++ t.name) (Except.ok n))
            ts ns ∧
      (countTables exec s database ts).1.tables
        = List.zipWith (fun t n => { t with count := n }) ts ns ∧
      (countTables exec s database ts).1.tables.length = ts.length ∧
      (countTables exec s database ts).1.tables.map (fun t => t.name) = ts.map (fun t => t.name) ∧
      (countTables exec s database ts).1.tables.map (fun t => t.auto_increment)
        = ts.map (fun t => t.auto_increment) := by
  have hsim := (countTables_recording_eq exec database ts s []).1
  have hkeep := countTables_keeps_fields exec database ts s
  have hnames : (countTables exec s database ts).1.tables.map (fun t => t.name)
      = ts.map (fun t => t.name) := by
    have := congrArg (List.map Prod.fst) hkeep
    simpa [List.map_map, Function.comp_def] using this
  have hautos : (countTables exec s database ts).1.tables.map (fun t => t.auto_increment)
      = ts.map (fun t => t.auto_increment) := by
    have := congrArg (List.map Prod.snd) hkeep
    simpa [List.map_map, Function.comp_def] using this
  have hlen : (countTables exec s database ts).1.tables.length = ts.length := by
    have := congrArg List.length hnames
    simpa using this
  rcases countTables_recording_cases exec database ts s [] with
    ⟨ns, hns, hres, hlog⟩ | ⟨pre, t, post, ns, e, _, _, _, hlog⟩
  · rw [hsim] at hres
    refine ⟨by rw [hres], ns, hns, ?_, by rw [hres]; rfl, hlen, hnames, hautos⟩
    rw [hlog]
    simp [countCalls, countQuery]
  · exfalso
    have hmem : Call.QueryRowx (countQuery database t.name) (Except.error e)
        ∈ (countTables (recording exec) (s, []) database ts).2.2 := by
      rw [hlog]
      simp
    have := hall _ hmem
    simp [Call.succeeded] at this

theorem countTables_sets_every_count_witness :
    (countTables (mysql shop) () "shop" uncounted).1.err = none ∧
    ∃ ns : List Int, ns.length = uncounted.length ∧
      (countTables (recording (mysql shop)) ((), []) "shop" uncounted).2.2
        = List.zipWith (fun t n =>
            Call.QueryRowx ("SELECT COUNT(*) FROM " ++ "shop" ++ "." ++ t.name) (Except.ok n))
            uncounted ns ∧
      (countTables (mysql shop) () "shop" uncounted).1.tables
        = List.zipWith (fun t n => { t with count := n }) uncounted ns ∧
      (countTables (mysql shop) () "shop" uncounted).1.tables.length = uncounted.length ∧
      (countTables (mysql shop) () "shop" uncounted).1.tables.map (fun t => t.name)
        = uncounted.map (fun t => t.name) ∧
      (countTables (mysql shop) () "shop" uncounted).1.tables.map (fun t => t.auto_increment)
        = uncounted.map (fun t => t.auto_increment) :=
  countTables_sets_every_count (mysql shop) () "shop" uncounted (by decide)

theorem countCalls_succeeded (database : String) (ts : List table) (ns : List Int) :
    ∀ c ∈ countCalls database ts ns, c.succeeded = true := by
  induction ts generalizing ns with
  | nil => simp [countCalls]
  | cons t rest ih =>
      cases ns with
      | nil => simp [countCalls]
      | cons n ns =>
          intro c hc
          simp only [countCalls, List.zipWith_cons_cons, List.mem_cons] at hc
          rcases hc with hc | hc
          · rw [hc]
            rfl
          · exact ih ns c hc

/-- C6: the journal of `countTables` shows that it stops at the first failing
count query. When some issued count query fails, the records split into those
before the failing one, each counted with success, the failing record, whose
query is the last one issued, and the records after it, for which no query
is issued; the error returned is the error of that query. It returns no error
exactly when every count query it issues succeeds. -/
theorem countTables_stops_at_first_failure {σ : Type} (exec : Queryer σ) (s : σ)
    (database : String) (ts : List table) :
    ((∃ c ∈ (countTables (recording exec) (s, []) database ts).2.2, c.succeeded = false) →
      ∃ (pre : List table) (t : table) (post : List table) (ns : List Int) (e : GoError),
        ts = pre ++ t :: post ∧ ns.length = pre.length ∧
        (countTables (recording exec) (s, []) database ts).2.2
          = List.zipWith (fun r n => Call.QueryRowx (countQuery database r.name) (Except.ok n))
              pre ns ++ [Call.QueryRowx (countQuery database t.name) (Except.error e)] ∧
        (countTables exec s database ts).1.err = some e) ∧
    ((countTables exec s database ts).1.err = none ↔
      ∀ c ∈ (countTables (recording exec) (s, []) database ts).2.2, c.succeeded = true) := by
  have hsim := (countTables_recording_eq exec database ts s []).1
  rcases countTables_recording_cases exec database ts s [] with
    ⟨ns, _, hres, hlog⟩ | ⟨pre, t, post, ns, e, hts, hlen, hres, hlog⟩
  · rw [hsim] at hres
    have hgood : ∀ c ∈ (countTables (recording exec) (s, []) database ts).2.2,
        c.succeeded = true := by
      rw [hlog]
      simpa using countCalls_succeeded database ts ns
    refine ⟨?_, ?_⟩
    · rintro ⟨c, hc, hbad⟩
      rw [hgood c hc] at hbad
      cases hbad
    · constructor
      · intro _
        exact hgood
      · intro _
        rw [hres]
  · rw [hsim] at hres
    have hmem : Call.QueryRowx (countQuery database t.name) (Except.error e)
        ∈ (countTables (recording exec) (s, []) database ts).2.2 := by
      rw [hlog]
      simp
    refine ⟨?_, ?_⟩
    · intro _
      refine ⟨pre, t, post, ns, e, hts, hlen, ?_, by rw [hres]⟩
      rw [hlog]
      simp [countCalls]
    · constructor
      · intro h
        rw [hres] at h
        cases h
      · intro h
        have := h _ hmem
        simp [Call.succeeded] at this

theorem countTables_stops_at_first_failure_witness :
    (countTables (recording (mysql shop)) ((), []) "shop" withGhost).2.2.length = 2 ∧
    ∃ (pre : List table) (t : table) (post : List table) (ns : List Int) (e : GoError),
        withGhost = pre ++ t :: post ∧ ns.length = pre.length ∧
        (countTables (recording (mysql shop)) ((), []) "shop" withGhost).2.2
          = List.zipWith (fun r n => Call.QueryRowx (countQuery "shop" r.name) (Except.ok n))
              pre ns ++ [Call.QueryRowx (countQuery "shop" t.name) (Except.error e)] ∧
        (countTables (mysql shop) () "shop" withGhost).1.err = some e :=
  ⟨by decide,
   (countTables_stops_at_first_failure (mysql shop) () "shop" withGhost).1 (by decide)⟩

/-! ## Failures -/

/-- The journal of `autoTables` is the catalog query followed by the journal
of the counting phase, when there is one. -/
theorem autoTables_recording_journal {σ : Type} (exec : Queryer σ) (database : String) (s : σ) :
    (autoTables (recording exec) (s, []) database).2.2 = [Call.Query catalogQuery database] ∨
    ∃ (s1 : σ) (ts : List table),
      autoTables exec s database = countTables exec s1 database ts ∧
      autoTables (recording exec) (s, []) database
        = countTables (recording exec) (s1, [Call.Query catalogQuery database]) database ts := by
  rcases hq : exec.Query s catalogQuery database with ⟨a, s1⟩
  have hq1 : (recording exec).Query (s, []) catalogQuery database
      = (a, (s1, [] ++ [Call.Query catalogQuery database])) := by
    rw [recording_Query, hq]
  cases a with
  | error e =>
      left
      rw [autoTables_query_error _ _ _ _ _ hq1]
      rfl
  | ok rows =>
      cases hscan : scanRows rows.rows [] with
      | error e =>
          left
          rw [autoTables_scan_error _ _ _ _ _ _ hq1 hscan]
          rfl
      | ok ts =>
          right
          refine ⟨s1, ts, autoTables_scan_ok _ _ _ _ _ _ hq hscan, ?_⟩
          rw [autoTables_scan_ok _ _ _ _ _ _ hq1 hscan]
          rfl

/-- C7, as the code has it: when a count query fails during a run,
`autoTables` returns the error of that query, and `main` ends with status 1
without writing any report to standard output. -/
theorem mainRun_emits_nothing_on_count_failure {σ : Type} (exec : Queryer σ) (s : σ)
    (database : String)
    (hfail : ∃ c ∈ (autoTables (recording exec) (s, []) database).2.2, c.succeeded = false) :
    (∃ (q : String) (e : GoError),
        Call.QueryRowx q (Except.error e) ∈ (autoTables (recording exec) (s, []) database).2.2 ∧
        (autoTables exec s database).1.err = some e) ∧
    mainRun exec s database = { stdout := "", exitCode := 1 } := by
  have hmain : ∀ e : GoError, (autoTables exec s database).1.err = some e →
      mainRun exec s database = { stdout := "", exitCode := 1 } := by
    intro e he
    unfold mainRun
    simp only [he]
  rcases autoTables_recording_journal exec database s with hj | ⟨s1, ts, hplain, hrec⟩
  · obtain ⟨c, hc, hbad⟩ := hfail
    rw [hj] at hc
    simp only [List.mem_singleton] at hc
    rw [hc] at hbad
    simp [Call.succeeded] at hbad
  · have hsim := (countTables_recording_eq exec database ts s1
      [Call.Query catalogQuery database]).1
    rcases countTables_recording_cases exec database ts s1 [Call.Query catalogQuery database] with
      ⟨ns, _, _, hlog⟩ | ⟨pre, t, post, ns, e, _, _, hres, hlog⟩
    · obtain ⟨c, hc, hbad⟩ := hfail
      rw [hrec, hlog] at hc
      simp only [List.mem_append, List.mem_singleton] at hc
      rcases hc with hc | hc
      · rw [hc] at hbad
        simp [Call.succeeded] at hbad
      · rw [countCalls_succeeded database ts ns c hc] at hbad
        cases hbad
    · rw [hsim] at hres
      have herr : (autoTables exec s database).1.err = some e := by
        rw [hplain, hres]
      refine ⟨⟨countQuery database t.name, e, ?_, herr⟩, hmain e herr⟩
      rw [hrec, hlog]
      simp

theorem mainRun_emits_nothing_on_count_failure_witness :
    (∃ (q : String) (e : GoError),
        Call.QueryRowx q (Except.error e)
          ∈ (autoTables (recording droppedUsers) ((), []) "shop").2.2 ∧
        (autoTables droppedUsers () "shop").1.err = some e) ∧
    mainRun droppedUsers () "shop" = { stdout := "", exitCode := 1 } :=
  mainRun_emits_nothing_on_count_failure droppedUsers () "shop" (by decide)

/-- C7, as stated, fails: on the handle `droppedUsers` the count query of the
second table fails, and `autoTables` returns the error together with both
records, the first of them counted. -/
theorem autoTables_returns_records_with_count_error :
    (∃ c ∈ (autoTables (recording droppedUsers) ((), []) "shop").2.2, c.succeeded = false) ∧
    (autoTables droppedUsers () "shop").1.err = some "Error 1146: Table does not exist" ∧
    (autoTables droppedUsers () "shop").1.tables
      = [⟨"orders", 1000, 950⟩, ⟨"users", 500, 0⟩] ∧
    ¬ ((autoTables droppedUsers () "shop").1.tables = []) := by
  decide

theorem scanRows_fail (pre : List (String × Int)) (e : GoError) (post : List ScanRow)
    (acc : List table) :
    scanRows (pre.map (fun p => ScanRow.ok p.1 p.2) ++ ScanRow.fail e :: post) acc
      = Except.error e := by
  induction pre generalizing acc with
  | nil => simp [scanRows]
  | cons p rest ih =>
      show scanRows (rest.map (fun p => ScanRow.ok p.1 p.2) ++ ScanRow.fail e :: post)
        (acc ++ [{ name := p.1, auto_increment := wrapInt (p.2 - 1), count := 0 }]) = _
      exact ih _

/-- The two failures `autoTables` does check: an error returned by `Query`,
and a row that `Scan` cannot decode, each give the error and no records. -/
theorem autoTables_checked_failures {σ : Type} (exec : Queryer σ) (s s1 : σ)
    (database : String) :
    (∀ e : GoError, exec.Query s catalogQuery database = (Except.error e, s1) →
      (autoTables exec s database).1 = { tables := [], err := some e }) ∧
    (∀ (rows : Rows) (pre : List (String × Int)) (e : GoError) (post : List ScanRow),
      exec.Query s catalogQuery database = (Except.ok rows, s1) →
      rows.rows = pre.map (fun p => ScanRow.ok p.1 p.2) ++ ScanRow.fail e :: post →
      (autoTables exec s database).1 = { tables := [], err := some e }) := by
  refine ⟨?_, ?_⟩
  · intro e hq
    rw [autoTables_query_error exec s s1 database e hq]
  · intro rows pre e post hq hrows
    rw [autoTables_scan_error exec s s1 database rows e hq (by rw [hrows, scanRows_fail])]

/-- When `autoTables` returns no error, the catalog query was answered and
every row it delivered was decoded. -/
theorem autoTables_success_decoded {σ : Type} (exec : Queryer σ) (s : σ) (database : String)
    (hok : (autoTables exec s database).1.err = none) :
    ∃ (rows : Rows) (rs : List (String × Int)),
      (exec.Query s catalogQuery database).1 = Except.ok rows ∧
      rows.rows = rs.map (fun p => ScanRow.ok p.1 p.2) := by
  rcases hq : exec.Query s catalogQuery database with ⟨a, s1⟩
  cases a with
  | error e =>
      rw [autoTables_query_error exec s s1 database e hq] at hok
      cases hok
  | ok rows =>
      cases hscan : scanRows rows.rows [] with
      | error e =>
          rw [autoTables_scan_error exec s s1 database rows e hq hscan] at hok
          cases hok
      | ok ts =>
          obtain ⟨rs, hrs, _⟩ := (scanRows_ok_iff _ _ _).mp hscan
          exact ⟨rows, rs, rfl, hrs⟩

/-- C8: on the handle `brokenCursor` the catalog query is issued, delivers
one row and then fails while the result rows are being read (`rows.Err()`
is set); `autoTables` returns the single record and no error. -/
theorem autoTables_ignores_rows_err :
    ((brokenCursor.Query () catalogQuery "shop").1.toOption.bind (fun rows => rows.err))
      = some "unexpected EOF" ∧
    (autoTables brokenCursor () "shop").1
      = { tables := [⟨"orders", 1000, 950⟩], err := none } ∧
    mainRun brokenCursor () "shop"
      = { stdout := printTables [⟨"orders", 1000, 950⟩], exitCode := 0 } := by
  have h : (autoTables brokenCursor () "shop").1
      = { tables := [⟨"orders", 1000, 950⟩], err := none } := by decide
  refine ⟨by decide, h, ?_⟩
  unfold mainRun
  simp only [h]

/-! ## Which tables are reported -/

theorem mysql_Query (cat : List CatalogTable) (database : String) :
    (mysql cat).Query () catalogQuery database
      = (Except.ok { rows := (catalogAnswer cat database).map scanCatalogRow, err := none }, ()) := by
  simp [mysql]

theorem catalogAnswer_perm (cat : List CatalogTable) (database : String) :
    (catalogAnswer cat database).Perm (cat.filter (selected database)) :=
  List.perm_insertionSort _ _

theorem mem_catalogAnswer (cat : List CatalogTable) (database : String) (e : CatalogTable) :
    e ∈ catalogAnswer cat database ↔ e ∈ cat ∧ selected database e = true := by
  rw [(catalogAnswer_perm cat database).mem_iff, List.mem_filter]

theorem scanCatalogRow_decoded (l : List CatalogTable) (rs : List (String × Int))
    (h : l.map scanCatalogRow = rs.map (fun p => ScanRow.ok p.1 p.2)) :
    rs = l.map decodedRow ∧ ∀ e ∈ l, (e.counter : Int) ≤ maxInt := by
  induction l generalizing rs with
  | nil =>
      cases rs with
      | nil => simp
      | cons p rs => simp at h
  | cons e rest ih =>
      cases rs with
      | nil => simp at h
      | cons p rs =>
          simp only [List.map_cons, List.cons.injEq] at h
          obtain ⟨hhead, htail⟩ := h
          obtain ⟨h1, h2⟩ := ih rs htail
          unfold scanCatalogRow at hhead
          by_cases hfit : (e.counter : Int) ≤ maxInt
          · rw [if_pos hfit] at hhead
            simp only [ScanRow.ok.injEq] at hhead
            refine ⟨?_, ?_⟩
            · rw [h1]
              simp only [List.map_cons, List.cons.injEq, and_true]
              exact Prod.ext hhead.1.symm hhead.2.symm
            · intro x hx
              rcases List.mem_cons.mp hx with hx | hx
              · rw [hx]
                exact hfit
              · exact h2 x hx
          · rw [if_neg hfit] at hhead
            cases hhead

theorem scanCatalogRow_of_fits (l : List CatalogTable)
    (h : ∀ e ∈ l, (e.counter : Int) ≤ maxInt) :
    l.map scanCatalogRow = (l.map decodedRow).map (fun p => ScanRow.ok p.1 p.2) := by
  rw [List.map_map]
  apply List.map_congr_left
  intro e he
  simp [scanCatalogRow, decodedRow, h e he]

theorem decodedRow_range (l : List CatalogTable) (h : ∀ e ∈ l, (e.counter : Int) ≤ maxInt) :
    ∀ p ∈ l.map decodedRow, minInt < p.2 ∧ p.2 ≤ maxInt := by
  intro p hp
  obtain ⟨e, he, hpe⟩ := List.mem_map.mp hp
  subst hpe
  refine ⟨?_, h e he⟩
  have : (0 : Int) ≤ (e.counter : Int) := Int.ofNat_nonneg _
  unfold minInt decodedRow
  simp only
  omega

theorem mysql_counts {cat : List CatalogTable} (database : String)
    (hfit : ∀ e ∈ cat, e.fits) (ts : List table)
    (hts : ∀ t ∈ ts, ∃ e ∈ cat, e.TABLE_SCHEMA = database ∧ e.TABLE_NAME = t.name) :
    (countTables (mysql cat) () database ts).1.err = none := by
  induction ts with
  | nil => simp [countTables]
  | cons t rest ih =>
      obtain ⟨e, he, hs, hn⟩ := hts t (List.mem_cons_self _ _)
      have hsome : (cat.find? (fun e => countQuery e.TABLE_SCHEMA e.TABLE_NAME
          == countQuery database t.name)).isSome = true := by
        rw [List.find?_isSome]
        exact ⟨e, he, by simp [hs, hn]⟩
      obtain ⟨e1, he1⟩ := Option.isSome_iff_exists.mp hsome
      have hmem : e1 ∈ cat := List.mem_of_find?_eq_some he1
      have hq : (mysql cat).QueryRowx () (countQuery database t.name)
          = (Except.ok (e1.tableRows : Int), ()) := by
        simp [mysql, he1, (hfit e1 hmem).2]
      rw [countTables_cons_ok _ _ _ _ _ _ _ hq]
      exact ih (fun x hx => hts x (List.mem_cons_of_mem _ hx))

/-- C2: against a server holding the catalog `cat`, the report `autoTables`
produces for the schema `database` holds exactly the tables of that schema
whose catalog `AUTO_INCREMENT` is greater than 1 (each with that value minus
1), and no others; it is produced whenever every catalog number converts to
a Go `int`; and for a schema that is empty or whose tables all have
`AUTO_INCREMENT` 0, 1 or null it has no records and no error. -/
theorem autoTables_reports_selected_tables (cat : List CatalogTable) (database : String) :
    ((autoTables (mysql cat) () database).1.err = none →
      ((autoTables (mysql cat) () database).1.tables.map
          (fun t => (t.name, t.auto_increment))).Perm
        ((cat.filter (fun e => e.TABLE_SCHEMA == database &&
            (match e.AUTO_INCREMENT with
             | some v => decide (1 < v)
             | none => false))).map
          (fun e => (e.TABLE_NAME, (e.counter : Int) - 1)))) ∧
    ((∀ e ∈ cat, e.fits) → (autoTables (mysql cat) () database).1.err = none) ∧
    ((∀ e ∈ cat, e.TABLE_SCHEMA = database →
        e.AUTO_INCREMENT = none ∨ e.AUTO_INCREMENT = some 0 ∨ e.AUTO_INCREMENT = some 1) →
      (autoTables (mysql cat) () database).1 = { tables := [], err := none }) := by
  have hperm : ((catalogAnswer cat database).map
      (fun e => (e.TABLE_NAME, (e.counter : Int) - 1))).Perm
      ((cat.filter (selected database)).map (fun e => (e.TABLE_NAME, (e.counter : Int) - 1))) :=
    (catalogAnswer_perm cat database).map _
  refine ⟨?_, ?_, ?_⟩
  · intro herr
    cases hscan : scanRows ((catalogAnswer cat database).map scanCatalogRow) [] with
    | error e =>
        rw [autoTables_scan_error _ _ _ _ _ _ (mysql_Query cat database) hscan] at herr
        cases herr
    | ok ts =>
        obtain ⟨rs, hrs, _⟩ := (scanRows_ok_iff _ _ _).mp hscan
        obtain ⟨hdec, hfit⟩ := scanCatalogRow_decoded _ rs hrs
        have hfields := autoTables_fields (mysql cat) () () database _ rs
          (mysql_Query cat database) hrs (by rw [hdec]; exact decodedRow_range _ hfit)
        rw [hfields, hdec, List.map_map]
        exact hperm
  · intro hfit
    have hfit1 : ∀ e ∈ catalogAnswer cat database, (e.counter : Int) ≤ maxInt :=
      fun e he => (hfit e ((mem_catalogAnswer cat database e).mp he).1).1
    rw [autoTables_of_rows (mysql cat) () () database _ _ (mysql_Query cat database)
      (scanCatalogRow_of_fits _ hfit1)]
    apply mysql_counts database hfit
    intro t ht
    obtain ⟨p, hp, hpt⟩ := List.mem_map.mp ht
    obtain ⟨e, he, hep⟩ := List.mem_map.mp hp
    obtain ⟨hcat, hsel⟩ := (mem_catalogAnswer cat database e).mp he
    refine ⟨e, hcat, ?_, ?_⟩
    · simp only [selected, Bool.and_eq_true, beq_iff_eq] at hsel
      exact hsel.1
    · rw [← hpt, ← hep]
      rfl
  · intro hsmall
    have hnone : cat.filter (selected database) = [] := by
      rw [List.filter_eq_nil_iff]
      intro e he hsel
      simp only [selected, Bool.and_eq_true, beq_iff_eq] at hsel
      rcases hsmall e he hsel.1 with h | h | h <;> rw [h] at hsel <;> simp at hsel
    have hrows : catalogAnswer cat database = [] := by
      unfold catalogAnswer
      rw [hnone]
      rfl
    rw [autoTables_scan_ok (mysql cat) () () database _ [] (mysql_Query cat database)
      (by rw [hrows]; rfl)]
    rfl

theorem autoTables_reports_selected_tables_witness :
    (autoTables (mysql shop) () "shop").1
      = { tables := [⟨"orders", 1000, 950⟩, ⟨"users", 500, 500⟩, ⟨"audits", 79, 100⟩,
                     ⟨"logs", 10, 0⟩], err := none } ∧
    ((autoTables (mysql shop) () "shop").1.tables.map (fun t => (t.name, t.auto_increment))).Perm
      [("orders", 1000), ("users", 500), ("logs", 10), ("audits", 79)] ∧
    (autoTables (mysql shop) () "warehouse").1 = { tables := [], err := none } :=
  ⟨by decide,
   (autoTables_reports_selected_tables shop "shop").1 (by decide),
   (autoTables_reports_selected_tables shop "warehouse").2.2 (by decide)⟩

/-! ## Rounding to 53 significant bits -/

theorem roundHalfEven_natCast (n : ℕ) : roundHalfEven (n : ℚ) = n := by
  unfold roundHalfEven
  simp

theorem floor_le_roundHalfEven (q : ℚ) : ⌊q⌋₊ ≤ roundHalfEven q := by
  unfold roundHalfEven
  simp only
  split_ifs <;> omega

theorem roundHalfEven_le_floor_succ (q : ℚ) : roundHalfEven q ≤ ⌊q⌋₊ + 1 := by
  unfold roundHalfEven
  simp only
  split_ifs <;> omega

theorem log2_unique (q : ℚ) (e : ℤ) (hq : 0 < q) (h1 : (2 : ℚ) ^ e ≤ q) (h2 : q < (2 : ℚ) ^ (e + 1)) :
    Int.log 2 q = e := by
  have hb : 1 < 2 := by norm_num
  have ha : e ≤ Int.log 2 q := by
    rw [← Int.zpow_le_iff_le_log hb hq]
    exact_mod_cast h1
  have hc : Int.log 2 q < e + 1 := by
    rw [← Int.lt_zpow_iff_log_lt hb hq]
    exact_mod_cast h2
  omega

theorem Representable.pos {q : ℚ} (h : Representable q) : 0 < q := by
  obtain ⟨m, k, h1, _, rfl⟩ := h
  have hm : (0 : ℚ) < (m : ℚ) := by
    have : 0 < m := lt_of_lt_of_le (by norm_num) h1
    exact_mod_cast this
  positivity

theorem roundTo53_of_representable {q : ℚ} (h : Representable q) : roundTo53 q = q := by
  have hpos := h.pos
  obtain ⟨m, k, h1, h2, rfl⟩ := h
  have h1q : (2 : ℚ) ^ (52 : ℤ) ≤ (m : ℚ) := by
    have h : ((2 ^ 52 : ℕ) : ℚ) ≤ (m : ℚ) := Nat.cast_le.mpr h1
    have e : ((2 ^ 52 : ℕ) : ℚ) = (2 : ℚ) ^ (52 : ℤ) := by norm_num
    rw [e] at h
    exact h
  have h2q : (m : ℚ) < (2 : ℚ) ^ (53 : ℤ) := by
    have h : (m : ℚ) < ((2 ^ 53 : ℕ) : ℚ) := Nat.cast_lt.mpr h2
    have e : ((2 ^ 53 : ℕ) : ℚ) = (2 : ℚ) ^ (53 : ℤ) := by norm_num
    rw [e] at h
    exact h
  have hk : (0 : ℚ) < (2 : ℚ) ^ k := by positivity
  have hlog : Int.log 2 ((m : ℚ) * 2 ^ k) = k + 52 := by
    apply log2_unique _ _ hpos
    · rw [add_comm, zpow_add₀ (by norm_num : (2 : ℚ) ≠ 0)]
      exact mul_le_mul_of_nonneg_right h1q hk.le
    · have : k + 52 + 1 = 53 + k := by ring
      rw [this, zpow_add₀ (by norm_num : (2 : ℚ) ≠ 0)]
      exact mul_lt_mul_of_pos_right h2q hk
  unfold roundTo53
  rw [if_neg (not_le.mpr hpos), hlog]
  have hsub : k + 52 - 52 = k := by ring
  rw [hsub, mul_div_assoc, div_self (ne_of_gt hk), mul_one, roundHalfEven_natCast]

theorem roundTo53_representable (q : ℚ) (hq : 0 < q) : Representable (roundTo53 q) := by
  have hb : 1 < 2 := by norm_num
  have hu : (0 : ℚ) < (2 : ℚ) ^ (Int.log 2 q - 52) := by positivity
  have hlo : (2 : ℚ) ^ (52 : ℤ) ≤ q / 2 ^ (Int.log 2 q - 52) := by
    rw [le_div_iff₀ hu, ← zpow_add₀ (by norm_num : (2 : ℚ) ≠ 0)]
    have : (52 : ℤ) + (Int.log 2 q - 52) = Int.log 2 q := by ring
    rw [this]
    exact_mod_cast Int.zpow_log_le_self hb hq
  have hhi : q / 2 ^ (Int.log 2 q - 52) < (2 : ℚ) ^ (53 : ℤ) := by
    rw [div_lt_iff₀ hu, ← zpow_add₀ (by norm_num : (2 : ℚ) ≠ 0)]
    have : (53 : ℤ) + (Int.log 2 q - 52) = Int.log 2 q + 1 := by ring
    rw [this]
    exact_mod_cast Int.lt_zpow_succ_log_self hb q
  have hx0 : (0 : ℚ) ≤ q / 2 ^ (Int.log 2 q - 52) := le_trans (by positivity) hlo
  have hfl1 : 2 ^ 52 ≤ ⌊q / 2 ^ (Int.log 2 q - 52)⌋₊ := by
    apply Nat.le_floor
    have : ((2 ^ 52 : ℕ) : ℚ) = (2 : ℚ) ^ (52 : ℤ) := by norm_num
    rw [this]
    exact hlo
  have hfl2 : ⌊q / 2 ^ (Int.log 2 q - 52)⌋₊ < 2 ^ 53 := by
    rw [Nat.floor_lt hx0]
    have : ((2 ^ 53 : ℕ) : ℚ) = (2 : ℚ) ^ (53 : ℤ) := by norm_num
    rw [this]
    exact hhi
  have hm1 := floor_le_roundHalfEven (q / 2 ^ (Int.log 2 q - 52))
  have hm2 := roundHalfEven_le_floor_succ (q / 2 ^ (Int.log 2 q - 52))
  unfold roundTo53
  rw [if_neg (not_le.mpr hq)]
  by_cases htop : roundHalfEven (q / 2 ^ (Int.log 2 q - 52)) < 2 ^ 53
  · exact ⟨_, _, le_trans hfl1 hm1, htop, rfl⟩
  · have heq : roundHalfEven (q / 2 ^ (Int.log 2 q - 52)) = 2 ^ 53 := by omega
    refine ⟨2 ^ 52, Int.log 2 q - 52 + 1, le_refl _, by norm_num, ?_⟩
    rw [heq, zpow_add₀ (by norm_num : (2 : ℚ) ≠ 0)]
    push_cast
    ring

theorem roundTo53_pos (q : ℚ) (hq : 0 < q) : 0 < roundTo53 q :=
  (roundTo53_representable q hq).pos

theorem roundTo53_nonneg (q : ℚ) : 0 ≤ roundTo53 q := by
  by_cases hq : 0 < q
  · exact (roundTo53_pos q hq).le
  · unfold roundTo53
    rw [if_pos (not_lt.mp hq)]

theorem roundTo53_zero : roundTo53 0 = 0 := by
  unfold roundTo53
  simp

theorem Representable.half {q : ℚ} (h : Representable q) : Representable (q / 2) := by
  obtain ⟨m, k, h1, h2, rfl⟩ := h
  refine ⟨m, k - 1, h1, h2, ?_⟩
  rw [zpow_sub₀ (by norm_num : (2 : ℚ) ≠ 0)]
  simp
  ring

theorem representable_two : Representable 2 :=
  ⟨2 ^ 52, -51, le_refl _, by norm_num, by norm_num⟩

theorem representable_200 : Representable 200 :=
  ⟨200 * 2 ^ 45, -45, by norm_num, by norm_num, by norm_num⟩

/-! ## float64 operations on finite values -/

theorem add_finite_finite (n1 n2 : Bool) (m1 m2 : ℚ) :
    (Float64.finite n1 m1).add (Float64.finite n2 m2)
      = if signed n1 m1 + signed n2 m2 = 0 then Float64.finite (n1 && n2) 0
        else Float64.finite (decide (signed n1 m1 + signed n2 m2 < 0))
          (roundTo53 |signed n1 m1 + signed n2 m2|) :=
  rfl

theorem sub_finite_finite (n1 n2 : Bool) (m1 m2 : ℚ) :
    (Float64.finite n1 m1).sub (Float64.finite n2 m2)
      = (Float64.finite n1 m1).add (Float64.finite (!n2) m2) :=
  rfl

theorem div_finite_finite (n1 n2 : Bool) (m1 m2 : ℚ) (h : m2 ≠ 0) :
    (Float64.finite n1 m1).div (Float64.finite n2 m2)
      = Float64.finite (xor n1 n2) (roundTo53 (m1 / m2)) := by
  show (if m2 = 0 then (if m1 = 0 then Float64.nan else Float64.inf (xor n1 n2))
      else Float64.finite (xor n1 n2) (roundTo53 (m1 / m2))) = _
  rw [if_neg h]

theorem div_finite_zero (n1 n2 : Bool) (m1 : ℚ) :
    (Float64.finite n1 m1).div (Float64.finite n2 0)
      = if m1 = 0 then Float64.nan else Float64.inf (xor n1 n2) := by
  show (if (0 : ℚ) = 0 then (if m1 = 0 then Float64.nan else Float64.inf (xor n1 n2))
      else Float64.finite (xor n1 n2) (roundTo53 (m1 / 0))) = _
  rw [if_pos rfl]

theorem mul_finite_finite (n1 n2 : Bool) (m1 m2 : ℚ) :
    (Float64.finite n1 m1).mul (Float64.finite n2 m2)
      = Float64.finite (xor n1 n2) (roundTo53 (m1 * m2)) :=
  rfl

/-- A sum of two finite values is finite; it is a zero exactly when the exact
sum is 0, and its magnitude is positive otherwise. -/
theorem add_finite_cases (n1 n2 : Bool) (m1 m2 : ℚ) :
    (signed n1 m1 + signed n2 m2 = 0 ∧
      (Float64.finite n1 m1).add (Float64.finite n2 m2) = Float64.finite (n1 && n2) 0) ∨
    (signed n1 m1 + signed n2 m2 ≠ 0 ∧ ∃ (n : Bool) (m : ℚ), 0 < m ∧
      (Float64.finite n1 m1).add (Float64.finite n2 m2) = Float64.finite n m) := by
  rw [add_finite_finite]
  by_cases h : signed n1 m1 + signed n2 m2 = 0
  · left
    exact ⟨h, by rw [if_pos h]⟩
  · right
    refine ⟨h, _, _, roundTo53_pos _ (abs_pos.mpr h), by rw [if_neg h]⟩

theorem ofInt_of_nonneg (i : Int) (h : 0 ≤ i) :
    Float64.ofInt i = Float64.finite false (roundTo53 (i : ℚ)) := by
  unfold Float64.ofInt
  have h1 : ¬ i < 0 := not_lt.mpr h
  have h2 : |(i : ℚ)| = (i : ℚ) := abs_of_nonneg (by exact_mod_cast h)
  rw [h2, decide_eq_false h1]

theorem ofInt_zero : Float64.ofInt 0 = Float64.finite false 0 := by
  rw [ofInt_of_nonneg 0 (le_refl _)]
  simp [roundTo53_zero]

/-- The value `diff` computes from two finite operands. -/
theorem diff_eq (t : table) :
    t.diff = Float64.mul
      (Float64.div
        (Float64.sub (Float64.ofInt t.auto_increment) (Float64.ofInt t.count))
        (Float64.div (Float64.add (Float64.ofInt t.auto_increment) (Float64.ofInt t.count))
          (Float64.finite false 2)))
      (Float64.finite false 100) :=
  rfl

/-- When the sum of the two operands is not a zero, every step of `diff` is
finite. -/
theorem chain_finite (n1 n2 : Bool) (m1 m2 : ℚ)
    (h : ((Float64.finite n1 m1).add (Float64.finite n2 m2)).isZero = false) :
    ∃ (n : Bool) (m : ℚ),
      Float64.mul
        (Float64.div ((Float64.finite n1 m1).sub (Float64.finite n2 m2))
          (Float64.div ((Float64.finite n1 m1).add (Float64.finite n2 m2))
            (Float64.finite false 2)))
        (Float64.finite false 100) = Float64.finite n m := by
  rcases add_finite_cases n1 n2 m1 m2 with ⟨_, hz⟩ | ⟨_, n, m, hm, hadd⟩
  · rw [hz] at h
    simp [Float64.isZero] at h
  · rw [hadd, div_finite_finite _ _ _ _ (by norm_num : (2 : ℚ) ≠ 0)]
    have hd : roundTo53 (m / 2) ≠ 0 := ne_of_gt (roundTo53_pos _ (by positivity))
    rw [sub_finite_finite]
    rcases add_finite_cases n1 (!n2) m1 m2 with ⟨_, hs⟩ | ⟨_, n3, m3, _, hs⟩
    · rw [hs, div_finite_finite _ _ _ _ hd, mul_finite_finite]
      exact ⟨_, _, rfl⟩
    · rw [hs, div_finite_finite _ _ _ _ hd, mul_finite_finite]
      exact ⟨_, _, rfl⟩

/-- When the sum of the two operands is a zero, `diff` divides by zero. -/
theorem chain_special (n1 n2 : Bool) (m1 m2 : ℚ)
    (h : ((Float64.finite n1 m1).add (Float64.finite n2 m2)).isZero = true) :
    ∃ d : Float64, (d = Float64.nan ∨ d = Float64.inf false ∨ d = Float64.inf true) ∧
      Float64.mul
        (Float64.div ((Float64.finite n1 m1).sub (Float64.finite n2 m2))
          (Float64.div ((Float64.finite n1 m1).add (Float64.finite n2 m2))
            (Float64.finite false 2)))
        (Float64.finite false 100) = d := by
  have h100 : (100 : ℚ) ≠ 0 := by norm_num
  rcases add_finite_cases n1 n2 m1 m2 with ⟨_, hz⟩ | ⟨_, n, m, hm, hadd⟩
  · rw [hz, div_finite_finite _ _ _ _ (by norm_num : (2 : ℚ) ≠ 0)]
    have h0 : roundTo53 ((0 : ℚ) / 2) = 0 := by
      rw [zero_div, roundTo53_zero]
    rw [h0, sub_finite_finite]
    rcases add_finite_cases n1 (!n2) m1 m2 with ⟨_, hs⟩ | ⟨_, n3, m3, hm3, hs⟩
    · rw [hs, div_finite_zero, if_pos rfl]
      exact ⟨_, Or.inl rfl, rfl⟩
    · rw [hs, div_finite_zero, if_neg (ne_of_gt hm3)]
      refine ⟨Float64.inf (xor (xor n3 (xor (n1 && n2) false)) false), ?_, ?_⟩
      · cases xor (xor n3 (xor (n1 && n2) false)) false
        · exact Or.inr (Or.inl rfl)
        · exact Or.inr (Or.inr rfl)
      · show (if (100 : ℚ) = 0 then Float64.nan
          else Float64.inf (xor (xor n3 (xor (n1 && n2) false)) false)) = _
        rw [if_neg h100]
  · rw [hadd] at h
    have : m ≠ 0 := ne_of_gt hm
    simp [Float64.isZero, this] at h

/-! ## The drift metric -/

theorem diffExact_finite (t : table)
    (h : ((t.auto_increment : ℚ) + (t.count : ℚ)) / 2 ≠ 0) :
    t.diffExact = Drift.finite
      (((t.auto_increment : ℚ) - (t.count : ℚ)) /
        (((t.auto_increment : ℚ) + (t.count : ℚ)) / 2) * 100) := by
  unfold table.diffExact
  simp only [if_neg h]

theorem sign_mul_pos (x c : ℚ) (hc : 0 < c) :
    (0 < x * c ↔ 0 < x) ∧ (x * c = 0 ↔ x = 0) ∧ (x * c < 0 ↔ x < 0) := by
  rcases lt_trichotomy x 0 with h | h | h
  · have h1 : x * c < 0 := mul_neg_of_neg_of_pos h hc
    refine ⟨⟨?_, ?_⟩, ⟨?_, ?_⟩, ⟨?_, ?_⟩⟩ <;> intro h2 <;> linarith
  · subst h
    simp
  · have h1 : 0 < x * c := mul_pos h hc
    refine ⟨⟨?_, ?_⟩, ⟨?_, ?_⟩, ⟨?_, ?_⟩⟩ <;> intro h2 <;> linarith

/-- C5, as the code has it: for a record with `auto_increment >= 0`,
`count >= 0` and not both zero, the formula of `diff`, computed in exact
arithmetic, is a finite number with the sign of `auto_increment - count` (so 0
exactly when the two are equal) and of magnitude at most 200. -/
theorem diff_sign_and_bound (t : table) (ha : 0 ≤ t.auto_increment) (hb : 0 ≤ t.count)
    (hne : t.auto_increment + t.count ≠ 0) :
    ∃ q : ℚ, t.diffExact = Drift.finite q ∧
      (0 < q ↔ t.count < t.auto_increment) ∧
      (q = 0 ↔ t.auto_increment = t.count) ∧
      (q < 0 ↔ t.auto_increment < t.count) ∧
      |q| ≤ 200 := by
  have ha1 : (0 : ℚ) ≤ (t.auto_increment : ℚ) := by exact_mod_cast ha
  have hb1 : (0 : ℚ) ≤ (t.count : ℚ) := by exact_mod_cast hb
  have hsum : (0 : ℚ) < (t.auto_increment : ℚ) + (t.count : ℚ) := by
    have h0 : (0 : Int) < t.auto_increment + t.count := by omega
    exact_mod_cast h0
  have hd : (0 : ℚ) < ((t.auto_increment : ℚ) + (t.count : ℚ)) / 2 := by positivity
  have hc : (0 : ℚ) < 200 / ((t.auto_increment : ℚ) + (t.count : ℚ)) := by positivity
  have hq : ((t.auto_increment : ℚ) - (t.count : ℚ)) /
      (((t.auto_increment : ℚ) + (t.count : ℚ)) / 2) * 100
      = ((t.auto_increment : ℚ) - (t.count : ℚ)) *
          (200 / ((t.auto_increment : ℚ) + (t.count : ℚ))) := by
    field_simp
    ring
  obtain ⟨hpos, hzero, hneg⟩ :=
    sign_mul_pos ((t.auto_increment : ℚ) - (t.count : ℚ)) _ hc
  refine ⟨_, diffExact_finite t (ne_of_gt hd), ?_, ?_, ?_, ?_⟩
  · rw [hq, hpos, sub_pos]
    exact Int.cast_lt
  · rw [hq, hzero, sub_eq_zero]
    exact Int.cast_inj
  · rw [hq, hneg, sub_neg]
    exact Int.cast_lt
  · rw [hq, abs_le]
    have hx : ((t.auto_increment : ℚ) - (t.count : ℚ)) *
        (200 / ((t.auto_increment : ℚ) + (t.count : ℚ)))
        = 200 * ((t.auto_increment : ℚ) - (t.count : ℚ)) /
            ((t.auto_increment : ℚ) + (t.count : ℚ)) := by
      field_simp
      ring
    rw [hx]
    constructor
    · rw [le_div_iff₀ hsum]
      nlinarith
    · rw [div_le_iff₀ hsum]
      nlinarith

theorem diff_sign_and_bound_witness :
    ∃ q : ℚ, (⟨"audits", 79, 100⟩ : table).diffExact = Drift.finite q ∧
      (0 < q ↔ (100 : Int) < 79) ∧
      (q = 0 ↔ (79 : Int) = 100) ∧
      (q < 0 ↔ (79 : Int) < 100) ∧
      |q| ≤ 200 :=
  diff_sign_and_bound ⟨"audits", 79, 100⟩ (by decide) (by decide) (by decide)

theorem zeroRecord_diff : zeroRecord.diff = Float64.nan := by
  rw [diff_eq]
  show Float64.mul (Float64.div ((Float64.ofInt 0).sub (Float64.ofInt 0))
    (Float64.div ((Float64.ofInt 0).add (Float64.ofInt 0)) (Float64.finite false 2)))
    (Float64.finite false 100) = Float64.nan
  rw [ofInt_zero, sub_finite_finite, add_finite_finite, add_finite_finite]
  have h1 : signed false 0 + signed false 0 = 0 := by simp [signed]
  have h2 : signed false 0 + signed (!false) 0 = 0 := by simp [signed]
  rw [if_pos h1, if_pos h2, div_finite_finite _ _ _ _ (by norm_num : (2 : ℚ) ≠ 0)]
  have h0 : roundTo53 ((0 : ℚ) / 2) = 0 := by
    rw [zero_div, roundTo53_zero]
  rw [h0, div_finite_zero, if_pos rfl]
  rfl

theorem zeroRecord_diffExact : zeroRecord.diffExact = Drift.nan := by
  simp [table.diffExact, zeroRecord]

/-- C5, as stated, fails: the record with `auto_increment = 0` and `count = 0`
meets both invariants and has equal fields, yet the formula of `diff` is 0/0
there: in exact arithmetic it is not a number, so it is not 0 and has no
magnitude, and the `float64` computation of the code gives NaN. -/
theorem diff_of_zero_record_is_nan :
    0 ≤ zeroRecord.auto_increment ∧ 0 ≤ zeroRecord.count ∧
    zeroRecord.auto_increment = zeroRecord.count ∧
    zeroRecord.diffExact = Drift.nan ∧
    (¬ ∃ q : ℚ, zeroRecord.diffExact = Drift.finite q) ∧
    zeroRecord.diff = Float64.nan := by
  have h : zeroRecord.diffExact = Drift.nan := zeroRecord_diffExact
  refine ⟨by decide, by decide, by decide, h, ?_, zeroRecord_diff⟩
  rintro ⟨q, hq⟩
  rw [h] at hq
  cases hq

theorem fmtFixed2_200 : fmtFixed2 false 200 = "200.00" := by
  have h : roundHalfEven ((200 : ℚ) * 100) = 20000 := by
    have h1 : (200 : ℚ) * 100 = ((20000 : ℕ) : ℚ) := by norm_num
    rw [h1, roundHalfEven_natCast]
  unfold fmtFixed2
  rw [h]
  decide

/-- With a count of 0 and a positive counter, every `float64` step of `diff`
is exact and the result is 200. -/
theorem diff_float_200 (t : table) (hc : t.count = 0) (ha : 1 ≤ t.auto_increment) :
    t.diff = Float64.finite false 200 := by
  have hpos : (0 : ℚ) < (t.auto_increment : ℚ) := by
    have : (0 : Int) < t.auto_increment := by omega
    exact_mod_cast this
  have hrep : Representable (roundTo53 (t.auto_increment : ℚ)) :=
    roundTo53_representable _ hpos
  have hA := hrep.pos
  have hne : roundTo53 (t.auto_increment : ℚ) ≠ 0 := ne_of_gt hA
  have hnot : ¬ roundTo53 (t.auto_increment : ℚ) < 0 := not_lt.mpr hA.le
  have habs : |roundTo53 (t.auto_increment : ℚ)| = roundTo53 (t.auto_increment : ℚ) :=
    abs_of_pos hA
  have hsub : (Float64.finite false (roundTo53 (t.auto_increment : ℚ))).sub
      (Float64.finite false 0) = Float64.finite false (roundTo53 (t.auto_increment : ℚ)) := by
    have hs : signed false (roundTo53 (t.auto_increment : ℚ)) + signed (!false) 0
        = roundTo53 (t.auto_increment : ℚ) := by simp [signed]
    rw [sub_finite_finite, add_finite_finite, hs, if_neg hne, habs,
      roundTo53_of_representable hrep, decide_eq_false hnot]
  have hadd : (Float64.finite false (roundTo53 (t.auto_increment : ℚ))).add
      (Float64.finite false 0) = Float64.finite false (roundTo53 (t.auto_increment : ℚ)) := by
    have hs : signed false (roundTo53 (t.auto_increment : ℚ)) + signed false 0
        = roundTo53 (t.auto_increment : ℚ) := by simp [signed]
    rw [add_finite_finite, hs, if_neg hne, habs,
      roundTo53_of_representable hrep, decide_eq_false hnot]
  rw [diff_eq, hc, ofInt_zero, ofInt_of_nonneg _ (by omega), hsub, hadd,
    div_finite_finite _ _ _ _ (by norm_num : (2 : ℚ) ≠ 0),
    roundTo53_of_representable hrep.half,
    div_finite_finite _ _ _ _ (ne_of_gt hrep.half.pos)]
  have hq : roundTo53 (t.auto_increment : ℚ) / (roundTo53 (t.auto_increment : ℚ) / 2) = 2 := by
    field_simp
  rw [hq, roundTo53_of_representable representable_two, mul_finite_finite]
  have h200 : (2 : ℚ) * 100 = 200 := by norm_num
  rw [h200, roundTo53_of_representable representable_200]
  rfl

/-- C10: for a record with `count = 0` and `auto_increment >= 1`, `diff` is
exactly 200, in the `float64` computation of the code as in exact arithmetic,
and the record is printed with the drift `200.00%`. -/
theorem diff_of_empty_table_is_200 (t : table) (hc : t.count = 0) (ha : 1 ≤ t.auto_increment) :
    t.diff = Float64.finite false 200 ∧
    t.diffExact = Drift.finite 200 ∧
    fmtFloat2 t.diff ++ "%" = "200.00%" ∧
    dataLine t = t.name ++ "\t" ++ toString t.auto_increment ++ "\t" ++ "0" ++ "\t" ++ "200.00%" := by
  have ha1 : (0 : ℚ) < (t.auto_increment : ℚ) := by
    have : (0 : Int) < t.auto_increment := by omega
    exact_mod_cast this
  have hd : ((t.auto_increment : ℚ) + (t.count : ℚ)) / 2 ≠ 0 := by
    rw [hc]
    simp only [Int.cast_zero, add_zero]
    exact ne_of_gt (by positivity)
  have hexact : t.diffExact = Drift.finite 200 := by
    rw [diffExact_finite t hd, hc]
    congr 1
    simp only [Int.cast_zero, add_zero, sub_zero]
    field_simp
    ring
  have hdiff := diff_float_200 t hc ha
  have hfmt : fmtFloat2 t.diff = "200.00" := by
    rw [hdiff]
    exact fmtFixed2_200
  refine ⟨hdiff, hexact, ?_, ?_⟩
  · rw [hfmt]
    rfl
  · unfold dataLine
    rw [hfmt, hc]
    simp only [String.append_assoc]
    rfl

theorem diff_of_empty_table_is_200_witness :
    (⟨"logs", 10, 0⟩ : table).diff = Float64.finite false 200 ∧
    (⟨"logs", 10, 0⟩ : table).diffExact = Drift.finite 200 ∧
    fmtFloat2 (⟨"logs", 10, 0⟩ : table).diff ++ "%" = "200.00%" ∧
    dataLine ⟨"logs", 10, 0⟩ = "logs" ++ "\t" ++ toString (10 : Int) ++ "\t" ++ "0" ++ "\t" ++ "200.00%" :=
  diff_of_empty_table_is_200 ⟨"logs", 10, 0⟩ rfl (by decide)

/-! ## A worked value: rounding shows in the printed digits -/

theorem roundHalfEven_up (q : ℚ) (f : ℕ) (h1 : (f : ℚ) + 1 / 2 < q) (h2 : q < (f : ℚ) + 1) :
    roundHalfEven q = f + 1 := by
  have hq : (0 : ℚ) ≤ q := by
    have : (0 : ℚ) ≤ (f : ℚ) := Nat.cast_nonneg f
    linarith
  have hfl : ⌊q⌋₊ = f := by
    rw [Nat.floor_eq_iff hq]
    constructor <;> linarith
  unfold roundHalfEven
  simp only [hfl]
  have ha : ¬ (q - (f : ℚ) < 1 / 2) := by linarith
  have hb : 1 / 2 < q - (f : ℚ) := by linarith
  rw [if_neg ha, if_pos hb]

theorem roundHalfEven_down (q : ℚ) (f : ℕ) (h1 : (f : ℚ) ≤ q) (h2 : q < (f : ℚ) + 1 / 2) :
    roundHalfEven q = f := by
  have hq : (0 : ℚ) ≤ q := le_trans (Nat.cast_nonneg f) h1
  have hfl : ⌊q⌋₊ = f := by
    rw [Nat.floor_eq_iff hq]
    constructor <;> linarith
  unfold roundHalfEven
  simp only [hfl]
  have ha : q - (f : ℚ) < 1 / 2 := by linarith
  rw [if_pos ha]

theorem roundTo53_eval (q : ℚ) (e : ℤ) (n : ℕ) (hq : 0 < q) (h1 : (2 : ℚ) ^ e ≤ q)
    (h2 : q < (2 : ℚ) ^ (e + 1)) (hn : roundHalfEven (q / 2 ^ (e - 52)) = n) :
    roundTo53 q = (n : ℚ) * 2 ^ (e - 52) := by
  unfold roundTo53
  rw [if_neg (not_le.mpr hq), log2_unique q e hq h1 h2, hn]

theorem ofInt_521 : Float64.ofInt 521 = Float64.finite false 521 := by
  rw [ofInt_of_nonneg _ (by norm_num)]
  have : roundTo53 ((521 : Int) : ℚ) = 521 := by
    apply roundTo53_of_representable
    exact ⟨521 * 2 ^ 43, -43, by norm_num, by norm_num, by norm_num⟩
  rw [this]

theorem ofInt_119 : Float64.ofInt 119 = Float64.finite false 119 := by
  rw [ofInt_of_nonneg _ (by norm_num)]
  have : roundTo53 ((119 : Int) : ℚ) = 119 := by
    apply roundTo53_of_representable
    exact ⟨119 * 2 ^ 46, -46, by norm_num, by norm_num, by norm_num⟩
  rw [this]

theorem diff_521_119 :
    (⟨"a", 521, 119⟩ : table).diff
      = Float64.finite false (8840073487319041 * 2 ^ (-46 : ℤ)) := by
  rw [diff_eq]
  show Float64.mul (Float64.div ((Float64.ofInt 521).sub (Float64.ofInt 119))
    (Float64.div ((Float64.ofInt 521).add (Float64.ofInt 119)) (Float64.finite false 2)))
    (Float64.finite false 100) = _
  rw [ofInt_521, ofInt_119, sub_finite_finite, add_finite_finite, add_finite_finite]
  have hs1 : signed false 521 + signed (!false) 119 = 402 := by simp [signed]; norm_num
  have hs2 : signed false 521 + signed false 119 = 640 := by simp [signed]; norm_num
  rw [hs1, hs2, if_neg (by norm_num), if_neg (by norm_num)]
  have h402 : roundTo53 |(402 : ℚ)| = 402 := by
    rw [abs_of_pos (by norm_num)]
    exact roundTo53_of_representable ⟨402 * 2 ^ 44, -44, by norm_num, by norm_num, by norm_num⟩
  have h640 : roundTo53 |(640 : ℚ)| = 640 := by
    rw [abs_of_pos (by norm_num)]
    exact roundTo53_of_representable ⟨640 * 2 ^ 43, -43, by norm_num, by norm_num, by norm_num⟩
  rw [h402, h640, div_finite_finite _ _ _ _ (by norm_num)]
  have h320 : roundTo53 ((640 : ℚ) / 2) = 320 := by
    have : (640 : ℚ) / 2 = 320 := by norm_num
    rw [this]
    exact roundTo53_of_representable ⟨320 * 2 ^ 44, -44, by norm_num, by norm_num, by norm_num⟩
  rw [h320, div_finite_finite _ _ _ _ (by norm_num)]
  have hquot : roundTo53 ((402 : ℚ) / 320) = 5657647031884186 * 2 ^ (-52 : ℤ) := by
    have := roundTo53_eval ((402 : ℚ) / 320) 0 5657647031884186 (by norm_num) (by norm_num)
      (by norm_num) (roundHalfEven_up _ 5657647031884185 (by norm_num) (by norm_num))
    simpa using this
  rw [hquot, mul_finite_finite]
  have hprod : roundTo53 (5657647031884186 * 2 ^ (-52 : ℤ) * 100)
      = 8840073487319041 * 2 ^ (-46 : ℤ) := by
    have := roundTo53_eval (5657647031884186 * 2 ^ (-52 : ℤ) * 100) 6 8840073487319041
      (by norm_num) (by norm_num) (by norm_num)
      (roundHalfEven_up _ 8840073487319040 (by norm_num) (by norm_num))
    simpa using this
  rw [hprod]
  rfl

/-- For `auto_increment = 521` and `count = 119` the exact drift is 125.625;
the rounded quotient and product make the printed drift `125.63%`. -/
theorem dataLine_521_119 : dataLine ⟨"a", 521, 119⟩ = "a\t521\t119\t125.63%" := by
  have h : roundHalfEven (8840073487319041 * 2 ^ (-46 : ℤ) * 100) = 12563 :=
    roundHalfEven_up _ 12562 (by norm_num) (by norm_num)
  have hf : fmtFloat2 (Float64.finite false (8840073487319041 * 2 ^ (-46 : ℤ))) = "125.63" := by
    show fmtFixed2 false (8840073487319041 * 2 ^ (-46 : ℤ)) = _
    unfold fmtFixed2
    rw [h]
    decide
  unfold dataLine
  rw [diff_521_119, hf]
  decide

/-! ## Layout of the report -/

theorem fmtFloat2_finite_shape (n : Bool) (m : ℚ) :
    hasTwoFractionDigits (fmtFloat2 (Float64.finite n m)) :=
  ⟨n, roundHalfEven (m * 100) / 100, roundHalfEven (m * 100) % 100 / 10 % 10,
    roundHalfEven (m * 100) % 100 % 10, Nat.mod_lt _ (by norm_num), Nat.mod_lt _ (by norm_num),
    rfl⟩

theorem diff_shape_of_sum (t : table)
    (h : (Float64.add (Float64.ofInt t.auto_increment) (Float64.ofInt t.count)).isZero = false) :
    hasTwoFractionDigits (fmtFloat2 t.diff) := by
  obtain ⟨n, m, hnm⟩ := chain_finite _ _ _ _ h
  have hd : t.diff = Float64.finite n m := hnm
  rw [hd]
  exact fmtFloat2_finite_shape n m

theorem diff_special_of_sum (t : table)
    (h : (Float64.add (Float64.ofInt t.auto_increment) (Float64.ofInt t.count)).isZero = true) :
    fmtFloat2 t.diff = "NaN" ∨ fmtFloat2 t.diff = "+Inf" ∨ fmtFloat2 t.diff = "-Inf" := by
  obtain ⟨d, hd, hchain⟩ := chain_special _ _ _ _ h
  have hdiff : t.diff = d := hchain
  rw [hdiff]
  rcases hd with hd | hd | hd <;> rw [hd]
  · exact Or.inl rfl
  · exact Or.inr (Or.inl rfl)
  · exact Or.inr (Or.inr rfl)

theorem sum_not_zero_of_invariants (t : table) (ha : 0 ≤ t.auto_increment) (hb : 0 ≤ t.count)
    (hne : t.auto_increment + t.count ≠ 0) :
    (Float64.add (Float64.ofInt t.auto_increment) (Float64.ofInt t.count)).isZero = false := by
  rw [ofInt_of_nonneg _ ha, ofInt_of_nonneg _ hb]
  have h1 := roundTo53_nonneg (t.auto_increment : ℚ)
  have h2 := roundTo53_nonneg (t.count : ℚ)
  have hpos : 0 < roundTo53 (t.auto_increment : ℚ) + roundTo53 (t.count : ℚ) := by
    rcases lt_or_eq_of_le ha with h | h
    · have : (0 : ℚ) < (t.auto_increment : ℚ) := by exact_mod_cast h
      have := roundTo53_pos _ this
      linarith
    · have hb1 : 0 < t.count := by omega
      have : (0 : ℚ) < (t.count : ℚ) := by exact_mod_cast hb1
      have := roundTo53_pos _ this
      linarith
  rcases add_finite_cases false false (roundTo53 (t.auto_increment : ℚ))
      (roundTo53 (t.count : ℚ)) with ⟨hz, _⟩ | ⟨_, n, m, hm, hadd⟩
  · simp only [signed] at hz
    simp at hz
    linarith
  · rw [hadd]
    have : m ≠ 0 := ne_of_gt hm
    simp [Float64.isZero, this]

theorem newlines_append (a b : String) : newlines (a ++ b) = newlines a + newlines b := by
  simp [newlines, String.data_append, List.count_append]

theorem digitChar_ne_newline : ∀ d : Nat, d < 10 → Nat.digitChar d ≠ '\n' := by
  decide

theorem toDigitsCore_newlines (fuel n : Nat) (acc : List Char) :
    (Nat.toDigitsCore 10 fuel n acc).count '\n' = acc.count '\n' := by
  induction fuel generalizing n acc with
  | zero => simp [Nat.toDigitsCore]
  | succ f ih =>
      unfold Nat.toDigitsCore
      simp only
      split
      · rw [List.count_cons_of_ne (digitChar_ne_newline _ (Nat.mod_lt _ (by decide))).symm]
      · rw [ih, List.count_cons_of_ne (digitChar_ne_newline _ (Nat.mod_lt _ (by decide))).symm]

theorem newlines_natToString (n : Nat) : newlines (toString n) = 0 := by
  show (Nat.toDigits 10 n).asString.data.count '\n' = 0
  unfold Nat.toDigits
  simp [List.asString, toDigitsCore_newlines]

theorem newlines_intToString (i : Int) : newlines (toString i) = 0 := by
  cases i with
  | ofNat m => exact newlines_natToString m
  | negSucc m =>
      show newlines ("-" ++ toString (Nat.succ m)) = 0
      rw [newlines_append, newlines_natToString]
      decide


theorem newlines_twoDigits (n : Nat) : newlines (twoDigits n) = 0 := by
  unfold twoDigits newlines
  simp only
  rw [List.count_cons_of_ne (digitChar_ne_newline _ (Nat.mod_lt _ (by decide))).symm,
    List.count_cons_of_ne (digitChar_ne_newline _ (Nat.mod_lt _ (by decide))).symm]
  rfl

theorem newlines_fmtFloat2 (d : Float64) : newlines (fmtFloat2 d) = 0 := by
  cases d with
  | finite n m =>
      unfold fmtFloat2 fmtFixed2
      simp only [newlines_append, newlines_natToString, newlines_twoDigits]
      cases n <;> decide
  | inf n => cases n <;> decide
  | nan => decide

theorem newlines_dataLine (t : table) : newlines (dataLine t) = newlines t.name := by
  unfold dataLine
  simp only [newlines_append, newlines_intToString, newlines_fmtFloat2]
  have h1 : newlines "\t" = 0 := by decide
  have h2 : newlines "%" = 0 := by decide
  rw [h1, h2]
  omega

theorem newlines_joinLines (ls : List String) (h : ∀ l ∈ ls, newlines l = 0) :
    newlines (joinLines ls) = ls.length := by
  induction ls with
  | nil => decide
  | cons l rest ih =>
      rw [joinLines_cons, newlines_append, newlines_append, h l (List.mem_cons_self _ _),
        ih (fun x hx => h x (List.mem_cons_of_mem _ hx))]
      have h1 : newlines "\n" = 1 := by decide
      rw [h1, List.length_cons]
      omega

theorem newlines_printTables (ts : List table) (h : ∀ t ∈ ts, t.name.data.count '\n' = 0) :
    (printTables ts).data.count '\n' = ts.length + 2 := by
  show newlines (printTables ts) = ts.length + 2
  rw [printTables_eq, newlines_joinLines]
  · simp
  · intro l hl
    simp only [List.cons_append, List.mem_cons, List.mem_append, List.mem_map,
      List.mem_singleton, List.not_mem_nil, or_false] at hl
    rcases hl with hl | ⟨t, ht, hl⟩ | hl
    · rw [hl]
      decide
    · rw [← hl, newlines_dataLine]
      exact h t ht
    · rw [hl]
      decide

/-- C9, as the code has it: for every sequence of n records the text
`printTables` writes is made of n + 2 lines: the header
`table<TAB>AUTO<TAB>count<TAB>Δ`, then one line per record in input order
holding the name, `auto_increment` in decimal, `count` in decimal and the
drift under the verb `%.2f` followed by `%`, then one empty line. The drift
has an optional minus sign, an integer part, a point and two fractional digits
whenever `float64(auto_increment) + float64(count)` is not a zero, which is
so for every record with `auto_increment >= 0` and `count >= 0` that are not
both 0; it is `NaN`, `+Inf` or `-Inf` otherwise, and `NaN` when both are 0.
For the empty sequence the text is the header and the empty line. Each line
is ended by one newline, and when no name holds a newline character these are
the only ones: the text has exactly n + 2 of them. -/
theorem printTables_layout (ts : List table) :
    printTables ts = joinLines (headerLine :: ts.map dataLine ++ [""]) ∧
    (headerLine :: ts.map dataLine ++ [""]).length = ts.length + 2 ∧
    headerLine = "table\tAUTO\tcount\tΔ" ∧
    (∀ t ∈ ts,
      dataLine t = t.name ++ "\t" ++ toString t.auto_increment ++ "\t" ++ toString t.count
        ++ "\t" ++ fmtFloat2 t.diff ++ "%" ∧
      ((Float64.add (Float64.ofInt t.auto_increment) (Float64.ofInt t.count)).isZero = false →
        hasTwoFractionDigits (fmtFloat2 t.diff)) ∧
      (0 ≤ t.auto_increment → 0 ≤ t.count → t.auto_increment + t.count ≠ 0 →
        hasTwoFractionDigits (fmtFloat2 t.diff)) ∧
      ((Float64.add (Float64.ofInt t.auto_increment) (Float64.ofInt t.count)).isZero = true →
        fmtFloat2 t.diff = "NaN" ∨ fmtFloat2 t.diff = "+Inf" ∨ fmtFloat2 t.diff = "-Inf") ∧
      (t.auto_increment = 0 → t.count = 0 → fmtFloat2 t.diff = "NaN")) ∧
    printTables [] = "table\tAUTO\tcount\tΔ\n\n" ∧
    ((∀ t ∈ ts, t.name.data.count '\n' = 0) →
      (printTables ts).data.count '\n' = ts.length + 2) := by
  refine ⟨printTables_eq ts, by simp, rfl, ?_, by decide, newlines_printTables ts⟩
  intro t _
  refine ⟨rfl, diff_shape_of_sum t, ?_, diff_special_of_sum t, ?_⟩
  · intro ha hb hne
    exact diff_shape_of_sum t (sum_not_zero_of_invariants t ha hb hne)
  · intro ha hb
    have hd : t.diff = zeroRecord.diff := by
      rw [diff_eq, diff_eq, ha, hb]
      rfl
    rw [hd, zeroRecord_diff]
    rfl

theorem printTables_layout_witness :
    printTables (autoTables (mysql shop) () "shop").1.tables
      = joinLines (headerLine ::
          (autoTables (mysql shop) () "shop").1.tables.map dataLine ++ [""]) ∧
    (printTables (autoTables (mysql shop) () "shop").1.tables).data.count '\n' = 4 + 2 :=
  ⟨(printTables_layout (autoTables (mysql shop) () "shop").1.tables).1,
   (printTables_layout (autoTables (mysql shop) () "shop").1.tables).2.2.2.2.2 (by decide)⟩

/-- C9, as stated, fails: the data line of the record with `auto_increment = 0`
and `count = 0` holds `NaN%`, a drift without fractional digits. -/
theorem printTables_zero_record_prints_nan :
    printTables [zeroRecord] = "table\tAUTO\tcount\tΔ\nt\t0\t0\tNaN%\n\n" := by
  have h : dataLine zeroRecord = "t\t0\t0\tNaN%" := by
    unfold dataLine
    rw [zeroRecord_diff]
    decide
  rw [printTables_eq]
  simp only [List.map_cons, List.map_nil, h]
  decide

end TableCount
